import Mathlib

/-!
Verification development for the Panopto Smart Notes extension.

The definitions below are a shallow embedding of the JavaScript source:
the pure string and document functions of `service-worker.js` are
translated to Lean functions over `String` and `List Char`, and the
stateful caption accumulator of the content script and the chunk
pipeline of the service worker are translated to explicit state-passing
functions.  JavaScript strings are modelled as Lean strings (length is
the number of code points, which agrees with the UTF-16 length on the
basic multilingual plane inputs the extension handles); JS regular
expressions are modelled by equivalent recursive character scanners;
floating point similarity scores are modelled as rationals (every
similarity produced by the code is a ratio i / m with m at most 18, so
the IEEE double comparisons against the literals 0.82 and 0.72 agree
with the exact rational comparisons).
-/

/-- Character class of the JS regex `\s` (also the set trimmed by
`String.prototype.trim`). -/
def isJsSpace (c : Char) : Bool :=
  c = ' ' || c = '\t' || c = '\n' || c = '\u000b' || c = '\u000c' || c = '\r' ||
  c = ' ' || c = ' ' || (' ' ≤ c && c ≤ ' ') ||
  c = ' ' || c = ' ' || c = ' ' || c = ' ' || c = '　' ||
  c = '﻿'

/-- One pass of `replace(/\s+/g, ' ')`: the flag records whether the
previous character was whitespace (in which case further whitespace is
dropped instead of emitted). -/
def collapseGo (prevSp : Bool) : List Char → List Char
  | [] => []
  | c :: rest =>
    if isJsSpace c then
      if prevSp then collapseGo true rest else ' ' :: collapseGo true rest
    else c :: collapseGo false rest

/-- JS `replace(/\s+/g, ' ')` on a character list. -/
def collapseWsL (l : List Char) : List Char := collapseGo false l

/-- Remove a trailing run of characters satisfying `p` (the effect of a
`replace(/[...]+$/, '')`). -/
def rdropW (p : Char → Bool) (l : List Char) : List Char :=
  (l.reverse.dropWhile p).reverse

/-- JS `String.prototype.trim` on a character list. -/
def jsTrimL (l : List Char) : List Char :=
  rdropW isJsSpace (l.dropWhile isJsSpace)

/-- JS `String.prototype.trim`. -/
def jsTrimS (s : String) : String := String.mk (jsTrimL s.data)

/-- Needle occurs in haystack, JS `String.prototype.includes`. -/
def strIncludes : List Char → List Char → Bool
  | hay, needle =>
    if needle.isPrefixOf hay then true
    else match hay with
      | [] => false
      | _ :: t => strIncludes t needle

/-- JS `startsWith`. -/
def startsWithStr (s pre : String) : Bool := pre.data.isPrefixOf s.data

example : jsTrimS "  hello  " = "hello" := by decide
example : collapseWsL "a  b\t c".data = "a b c".data := by decide
example : strIncludes "abcdef".data "cde".data = true := by decide
example : strIncludes "abcdef".data "xz".data = false := by decide

/-- Trailing-junk class of `sanitizeHeading`, the regex `[:\-–\s]`. -/
def isHeadTrailJunk (c : Char) : Bool :=
  c = ':' || c = '-' || c = '–' || isJsSpace c

/-- `sanitizeHeading` from service-worker.js: collapse whitespace, strip a
trailing run of colon/dash/space characters, trim, and reject results
shorter than 3 characters. -/
def sanitizeHeading (s : String) : String :=
  let r := jsTrimL (rdropW isHeadTrailJunk (collapseWsL s.data))
  if r.length < 3 then "" else String.mk r

/-- Leading-glyph class of `sanitizeBullet`, the regex `[-*•\d.)]`. -/
def isBulletGlyph (c : Char) : Bool :=
  c = '-' || c = '*' || c = '•' || ('0' ≤ c && c ≤ '9') || c = '.' || c = ')'

/-- Strip one leading match of `\s*GLYPH+\s*` (no change when no glyph
follows the optional leading whitespace). -/
def stripLeadRun (glyph : Char → Bool) (l : List Char) : List Char :=
  let r := l.dropWhile isJsSpace
  match r with
  | [] => l
  | c :: _ => if glyph c then (r.dropWhile glyph).dropWhile isJsSpace else l

/-- Substrings whose presence (case-insensitively) triggers
`BANNED_NOTE_CONTENT_RE`; the optional plural s of the regex makes the
singular form the exact membership test. -/
def bannedPhrases : List String :=
  ["exam tip", "study tip", "helpful hint", "key takeaway",
   "test strategy", "quiz strategy"]

/-- Test of `BANNED_NOTE_CONTENT_RE` on a string. -/
def bannedNoteContent (s : String) : Bool :=
  bannedPhrases.any (fun p => strIncludes (s.data.map Char.toLower) p.data)

/-- `sanitizeBullet` from service-worker.js: collapse whitespace and trim,
strip a leading bullet/number-glyph run, trim again, and reject empty,
banned, or shorter-than-8-character results. -/
def sanitizeBullet (b : String) : String :=
  let c1 := jsTrimL (collapseWsL b.data)
  let c2 := jsTrimL (stripLeadRun isBulletGlyph c1)
  if c2.isEmpty then ""
  else if bannedNoteContent (String.mk c2) then ""
  else if c2.length < 8 then ""
  else String.mk c2

/-- The `STOPWORDS` set of service-worker.js. -/
def STOPWORDS : List String :=
  ["a", "an", "and", "are", "as", "at", "be", "by", "for", "from", "in", "into",
   "is", "it", "its", "of", "on", "or", "that", "the", "their", "this", "to",
   "was", "were", "with", "we", "you", "your"]

/-- Split a character list into maximal nonempty words separated by
characters satisfying `sep` (JS `split` followed by `filter(Boolean)`). -/
def wordsGo (sep : Char → Bool) : List Char → List Char → List String
  | [], cur => if cur.isEmpty then [] else [String.mk cur.reverse]
  | c :: rest, cur =>
    if sep c then
      if cur.isEmpty then wordsGo sep rest []
      else String.mk cur.reverse :: wordsGo sep rest []
    else wordsGo sep rest (c :: cur)

def wordsBy (sep : Char → Bool) (l : List Char) : List String := wordsGo sep l []

/-- Keep lowercase letters, digits and whitespace; replace every other
character with a space (the regex `[^a-z0-9\s]` applied after
`toLowerCase`). -/
def keyChar (c : Char) : Char :=
  let c := c.toLower
  if ('a' ≤ c && c ≤ 'z') || ('0' ≤ c && c ≤ '9') || isJsSpace c then c else ' '

/-- Lowercased, punctuation-stripped, stopword-filtered token list of a
text. -/
def keyTokens (s : String) : List String :=
  (wordsBy isJsSpace (s.data.map keyChar)).filter (fun t => !STOPWORDS.contains t)

/-- `semanticTextKey`: the first 18 key tokens joined by single spaces. -/
def semanticTextKey (s : String) : String :=
  String.intercalate " " ((keyTokens s).take 18)

/-- `canonicalHeading`: the first 8 key tokens joined by single spaces. -/
def canonicalHeading (s : String) : String :=
  String.intercalate " " ((keyTokens s).take 8)

/-- `tokenSetSimilarity`: distinct-token intersection size over the larger
distinct-token count, as an exact rational built with `mkRat` (the JS
double comparisons with 0.82 and 0.72 agree with the exact rational ones
for all reachable set sizes, which are at most 18). -/
def tokenSetSimilarity (a b : String) : ℚ :=
  let aSet := (wordsBy (fun c => c = ' ') a.data).dedup
  let bSet := (wordsBy (fun c => c = ' ') b.data).dedup
  if aSet.length = 0 || bSet.length = 0 then 0
  else mkRat ((aSet.filter (fun t => bSet.contains t)).length)
             (max aSet.length bSet.length)

/-- `isNearDuplicateText`: equal keys, key containment, or token-set
similarity at least 0.82. -/
def isNearDuplicateText (a b : String) : Bool :=
  if a = "" || b = "" then false
  else
    let an := semanticTextKey a
    let bn := semanticTextKey b
    if an = "" || bn = "" then false
    else if an = bn then true
    else if strIncludes an.data bn.data || strIncludes bn.data an.data then true
    else decide (mkRat 82 100 ≤ tokenSetSimilarity an bn)

/-- `dedupeBullets` accumulator: sanitize each bullet in order and keep it
only when it is not a near duplicate of one already kept. -/
def dedupeGo (out : List String) : List String → List String
  | [] => out
  | raw :: rest =>
    let b := sanitizeBullet raw
    if b = "" then dedupeGo out rest
    else if out.any (fun e => isNearDuplicateText e b) then dedupeGo out rest
    else dedupeGo (out ++ [b]) rest

def dedupeBullets (bullets : List String) : List String := dedupeGo [] bullets

/-- `isUsefulHeading`: nonempty canonical key that is not a generic
placeholder. -/
def isUsefulHeading (heading : String) : Bool :=
  if heading = "" then false
  else
    let key := canonicalHeading heading
    if key = "" then false
    else (key != "lecture notes" && key != "notes")

/-- A section of the persisted notes document. -/
structure NoteSection where
  heading : String
  bullets : List String
deriving DecidableEq, Repr

/-- The canonical `NotesState` document shape. -/
structure NotesState where
  title : Option String
  sections : List NoteSection
  lastUpdatedAt : Option String
  lastChunkId : Option String
deriving DecidableEq, Repr

/-- `defaultNotesState` from service-worker.js. -/
def defaultNotesState : NotesState :=
  { title := none, sections := [], lastUpdatedAt := none, lastChunkId := none }

/-- A section of an arbitrary (model- or caller-supplied) JS value as read
by `normalizeNotesState`: `none` in a field models a missing or non-string
(resp. non-array) JS value, which the code treats the same way. -/
structure RawSection where
  heading : Option String
  bullets : Option (List (Option String))
deriving DecidableEq, Repr

/-- The fields of an arbitrary JS object value that `normalizeNotesState`
reads.  An `Option RawNotes` input of `none` models a non-object input. -/
structure RawNotes where
  title : Option String
  sections : Option (List RawSection)
  outline : Option (List RawSection)
  lastUpdatedAt : Option String
  lastChunkId : Option String
  lastUpdatedChunkId : Option String
deriving DecidableEq, Repr

/-- `sanitizeHeading(section && section.heading)`: a non-string heading
sanitizes to the empty string. -/
def sanitizeHeadingOpt (o : Option String) : String :=
  match o with
  | some h => sanitizeHeading h
  | none => ""

/-- `sanitizeBullet` on a possibly non-string array element. -/
def sanitizeBulletOpt (o : Option String) : String :=
  match o with
  | some b => sanitizeBullet b
  | none => ""

/-- `bullets.map(sanitizeBullet).filter(Boolean)` of `normalizeNotesState`. -/
def normBullets (o : Option (List (Option String))) : List String :=
  match o with
  | some l => (l.map sanitizeBulletOpt).filter (fun b => b != "")
  | none => []

/-- The section loop of `normalizeNotesState`: keep sanitized sections
whose sanitized heading is nonempty. -/
def normSections (src : List RawSection) : List NoteSection :=
  src.filterMap (fun rs =>
    let h := sanitizeHeadingOpt rs.heading
    if h = "" then none else some { heading := h, bullets := normBullets rs.bullets })

/-- Read an optional string field the way `normalizeNotesState` reads
`lastUpdatedAt` and the chunk ids: a string with nonempty trim is kept
trimmed, anything else leaves the default null. -/
def normOptField (o : Option String) : Option String :=
  match o with
  | some t => if jsTrimS t = "" then none else some (jsTrimS t)
  | none => none

/-- `normalizeNotesState` from service-worker.js over the modelled JS
input values. -/
def normalizeNotesState (input : Option RawNotes) : NotesState :=
  match input with
  | none => defaultNotesState
  | some r =>
    let src := match r.sections with
      | some l => l
      | none => match r.outline with
        | some l => l
        | none => []
    { title := normOptField r.title
      sections := (normSections src).take 30
      lastUpdatedAt := normOptField r.lastUpdatedAt
      lastChunkId :=
        match normOptField r.lastChunkId with
        | some t => some t
        | none => normOptField r.lastUpdatedChunkId }

/-- View a `NotesState` value as the JS object `normalizeNotesState`
would receive when the state is normalized again. -/
def toRaw (n : NotesState) : RawNotes :=
  { title := n.title
    sections := some (n.sections.map (fun s =>
      { heading := some s.heading, bullets := some (s.bullets.map some) }))
    outline := none
    lastUpdatedAt := n.lastUpdatedAt
    lastChunkId := n.lastChunkId
    lastUpdatedChunkId := none }

/-- Re-normalization of an already structured `NotesState` value. -/
def normalizeNS (n : NotesState) : NotesState := normalizeNotesState (some (toRaw n))

/-- `findMatchingSectionIndex`: first exact canonical-heading match, else
the best token-set-similarity score when it reaches 0.72. -/
def findMatchingSectionIndex (sections : List NoteSection) (heading : String) :
    Option Nat :=
  let target := canonicalHeading heading
  if target = "" then none
  else
    match sections.findIdx? (fun s => canonicalHeading s.heading = target) with
    | some i => some i
    | none =>
      let best := (sections.map (fun s =>
        tokenSetSimilarity target (canonicalHeading s.heading))).enum.foldl
          (fun p iv => if p.2 < iv.2 then (some iv.1, iv.2) else p)
          ((none : Option Nat), (0 : ℚ))
      if mkRat 72 100 ≤ best.2 then best.1 else none

/-- Merge incoming bullets into the section at index `i`
(`merged.sections[index].bullets = dedupeBullets([...old, ...incoming])`). -/
def mergeInto (acc : List NoteSection) (i : ℕ) (incomingBullets : List String) :
    List NoteSection :=
  match acc[i]? with
  | some old =>
    acc.set i { heading := old.heading,
                bullets := dedupeBullets (old.bullets ++ incomingBullets) }
  | none => acc

/-- One step of the candidate-section loop of `enforceCumulativeQuality`. -/
def mergeStep (acc : List NoteSection) (inc : NoteSection) : List NoteSection :=
  let heading := sanitizeHeading inc.heading
  let incomingBullets := dedupeBullets inc.bullets
  if heading = "" || incomingBullets.isEmpty then acc
  else
    match findMatchingSectionIndex acc heading with
    | some i => mergeInto acc i incomingBullets
    | none =>
      if isUsefulHeading heading then
        acc ++ [{ heading := heading, bullets := incomingBullets }]
      else acc

/-- JS `slice(-n)`: the last at most `n` elements. -/
def takeLastN (n : Nat) (l : List α) : List α := l.drop (l.length - n)

/-- The merged section list before the final cap/filter/slice stage of
`enforceCumulativeQuality`. -/
def mergedSections (previous candidate : NotesState) : List NoteSection :=
  candidate.sections.foldl mergeStep
    (previous.sections.map (fun s =>
      { heading := s.heading, bullets := dedupeBullets s.bullets }))

/-- The final per-section cap of `enforceCumulativeQuality`: re-sanitize
the heading and keep the most recent 80 of the de-duplicated bullets. -/
def capSection (s : NoteSection) : NoteSection :=
  { heading := sanitizeHeading s.heading,
    bullets := takeLastN 80 (dedupeBullets s.bullets) }

/-- The final keep filter of `enforceCumulativeQuality`: nonempty heading
and at least one bullet. -/
def keepSection (s : NoteSection) : Bool :=
  s.heading != "" && !s.bullets.isEmpty

/-- `enforceCumulativeQuality` from service-worker.js. -/
def enforceCumulativeQuality (previousNotes candidateNotes : Option RawNotes) :
    NotesState :=
  let previous := normalizeNotesState previousNotes
  let candidate := normalizeNotesState candidateNotes
  { title := match previous.title with
      | some t => some t
      | none => candidate.title
    sections :=
      (((mergedSections previous candidate).map capSection).filter keepSection).take 30
    lastUpdatedAt := match candidate.lastUpdatedAt with
      | some t => some t
      | none => previous.lastUpdatedAt
    lastChunkId := match candidate.lastChunkId with
      | some t => some t
      | none => previous.lastChunkId }

/-- Well-formedness of collapsed whitespace: scanning with a previous-was-
space flag, every whitespace character is a plain space and never follows
another space. -/
def wsOk (prevSp : Bool) : List Char → Bool
  | [] => true
  | c :: rest =>
    if isJsSpace c then (!prevSp && c = ' ') && wsOk true rest
    else wsOk false rest

lemma wsOk_collapseGo (l : List Char) : ∀ b, wsOk b (collapseGo b l) = true := by
  induction l with
  | nil => intro b; rfl
  | cons c rest ih =>
    intro b
    have hsp : isJsSpace ' ' = true := by decide
    by_cases hc : isJsSpace c = true
    · cases b with
      | true => simp [collapseGo, hc, ih true]
      | false => simp [collapseGo, wsOk, hc, hsp, ih true]
    · simp at hc
      simp [collapseGo, wsOk, hc, ih false]

lemma collapseGo_of_wsOk (l : List Char) :
    ∀ b, wsOk b l = true → collapseGo b l = l := by
  induction l with
  | nil => intro b _; rfl
  | cons c rest ih =>
    intro b h
    by_cases hc : isJsSpace c = true
    · simp [wsOk, hc] at h
      obtain ⟨⟨hb, hsp⟩, hrest⟩ := h
      subst hb
      subst hsp
      simp [collapseGo, hc, ih true hrest]
    · simp at hc
      simp [wsOk, hc] at h
      simp [collapseGo, hc, ih false h]

lemma wsOk_true_head {r : List Char} (h : wsOk true r = true) :
    ∀ a, r.head? = some a → isJsSpace a = false := by
  intro a ha
  cases r with
  | nil => simp at ha
  | cons c t =>
    have hca : c = a := by simpa using ha
    subst hca
    by_cases hc : isJsSpace c = true
    · simp [wsOk, hc] at h
    · simpa using hc

lemma wsOk_of_head_not {r : List Char}
    (h : ∀ a, r.head? = some a → isJsSpace a = false) :
    ∀ b b', wsOk b r = wsOk b' r := by
  intro b b'
  cases r with
  | nil => rfl
  | cons c t =>
    have hc := h c (by simp)
    simp [wsOk, hc]

lemma wsOk_append_left {l₁ l₂ : List Char} :
    ∀ b, wsOk b (l₁ ++ l₂) = true → wsOk b l₁ = true := by
  induction l₁ with
  | nil => intro b _; rfl
  | cons c t ih =>
    intro b h
    by_cases hc : isJsSpace c = true
    · simp [wsOk, hc] at h ⊢
      exact ⟨h.1, ih true h.2⟩
    · simp at hc
      simp [wsOk, hc] at h ⊢
      exact ih false h

lemma head?_dropWhile (p : Char → Bool) (l : List Char) :
    ∀ a, (l.dropWhile p).head? = some a → p a = false := by
  induction l with
  | nil => intro a h; simp [List.dropWhile] at h
  | cons c t ih =>
    intro a h
    by_cases hc : p c = true
    · rw [List.dropWhile_cons_of_pos hc] at h
      exact ih a h
    · simp at hc
      rw [List.dropWhile_cons_of_neg (by simp [hc])] at h
      have hca : c = a := by simpa using h
      subst hca
      exact hc

lemma dropWhile_eq_self_of_head {p : Char → Bool} {l : List Char}
    (h : ∀ a, l.head? = some a → p a = false) : l.dropWhile p = l := by
  cases l with
  | nil => rfl
  | cons c t => exact List.dropWhile_cons_of_neg (by simp [h c (by simp)])

lemma wsOk_dropWhile {l : List Char} (h : wsOk false l = true) :
    wsOk false (l.dropWhile isJsSpace) = true := by
  cases l with
  | nil => simpa using h
  | cons c t =>
    by_cases hc : isJsSpace c = true
    · rw [List.dropWhile_cons_of_pos hc]
      simp [wsOk, hc] at h
      have ht : t.dropWhile isJsSpace = t :=
        dropWhile_eq_self_of_head (wsOk_true_head h.2)
      rw [ht, wsOk_of_head_not (wsOk_true_head h.2) false true]
      exact h.2
    · simp at hc
      rw [List.dropWhile_cons_of_neg (by simp [hc])]
      exact h

lemma exists_append_rdropW (p : Char → Bool) (l : List Char) :
    ∃ q, l = rdropW p l ++ q := by
  refine ⟨(l.reverse.takeWhile p).reverse, ?_⟩
  unfold rdropW
  rw [← List.reverse_append, List.takeWhile_append_dropWhile, List.reverse_reverse]

lemma getLast?_rdropW (p : Char → Bool) (l : List Char) :
    ∀ a, (rdropW p l).getLast? = some a → p a = false := by
  intro a h
  unfold rdropW at h
  rw [List.getLast?_reverse] at h
  exact head?_dropWhile p l.reverse a h

lemma rdropW_eq_self_of_getLast {p : Char → Bool} {l : List Char}
    (h : ∀ a, l.getLast? = some a → p a = false) : rdropW p l = l := by
  unfold rdropW
  rw [dropWhile_eq_self_of_head, List.reverse_reverse]
  intro a ha
  rw [List.head?_reverse] at ha
  exact h a ha

lemma getLast?_append_right {l₁ l₂ : List Char} (h : l₂ ≠ []) :
    (l₁ ++ l₂).getLast? = l₂.getLast? :=
  List.getLast?_append_of_ne_nil l₁ h

lemma head?_of_append_some {r q : List Char} {a : Char} (h : r.head? = some a) :
    (r ++ q).head? = some a := by
  cases r with
  | nil => simp at h
  | cons c t => simpa using h

lemma jsTrimL_head (l : List Char) :
    ∀ a, (jsTrimL l).head? = some a → isJsSpace a = false := by
  intro a h
  unfold jsTrimL at h
  obtain ⟨q, hq⟩ := exists_append_rdropW isJsSpace (l.dropWhile isJsSpace)
  have h2 : (l.dropWhile isJsSpace).head? = some a := by
    rw [hq]
    exact head?_of_append_some h
  exact head?_dropWhile isJsSpace l a h2

lemma jsTrimL_getLast (l : List Char) :
    ∀ a, (jsTrimL l).getLast? = some a → isJsSpace a = false :=
  fun a h => getLast?_rdropW isJsSpace _ a h

lemma jsTrimL_idem (l : List Char) : jsTrimL (jsTrimL l) = jsTrimL l := by
  have h1 : (jsTrimL l).dropWhile isJsSpace = jsTrimL l :=
    dropWhile_eq_self_of_head (jsTrimL_head l)
  show rdropW isJsSpace ((jsTrimL l).dropWhile isJsSpace) = jsTrimL l
  rw [h1]
  exact rdropW_eq_self_of_getLast (jsTrimL_getLast l)

lemma jsTrimS_idem (s : String) : jsTrimS (jsTrimS s) = jsTrimS s := by
  unfold jsTrimS
  exact congrArg String.mk (jsTrimL_idem s.data)

lemma not_isJsSpace_of_not_junk {a : Char} (h : isHeadTrailJunk a = false) :
    isJsSpace a = false := by
  by_cases hs : isJsSpace a = true
  · simp [isHeadTrailJunk, hs] at h
  · simpa using hs

/-- The character-list core of `sanitizeHeading`, before the length
check. -/
def headingCore (l : List Char) : List Char :=
  jsTrimL (rdropW isHeadTrailJunk (collapseWsL l))

lemma sanitizeHeading_eq (s : String) :
    sanitizeHeading s =
      if (headingCore s.data).length < 3 then "" else String.mk (headingCore s.data) :=
  rfl

lemma headingCore_facts (l : List Char) :
    wsOk false (headingCore l) = true ∧
    (∀ a, (headingCore l).getLast? = some a → isHeadTrailJunk a = false) ∧
    (∀ a, (headingCore l).head? = some a → isJsSpace a = false) := by
  set m := collapseWsL l with hm
  set d := rdropW isHeadTrailJunk m with hd
  have hwm : wsOk false m = true := wsOk_collapseGo l false
  have hwd : wsOk false d = true := by
    obtain ⟨q, hq⟩ := exists_append_rdropW isHeadTrailJunk m
    exact wsOk_append_left false (by rw [← hq]; exact hwm)
  have hdl : ∀ a, d.getLast? = some a → isHeadTrailJunk a = false :=
    fun a h => getLast?_rdropW isHeadTrailJunk m a h
  set e := d.dropWhile isJsSpace with he
  by_cases hnil : e = []
  · have hr : headingCore l = [] := by
      show jsTrimL d = []
      show rdropW isJsSpace e = []
      rw [hnil]
      rfl
    rw [hr]
    refine ⟨rfl, ?_, ?_⟩ <;> intro a h <;> simp at h
  · have hle : e.getLast? = d.getLast? := by
      conv_rhs => rw [show d = d.takeWhile isJsSpace ++ e from
        (List.takeWhile_append_dropWhile isJsSpace d).symm]
      exact (getLast?_append_right hnil).symm
    have hlej : ∀ a, e.getLast? = some a → isHeadTrailJunk a = false := by
      intro a h
      exact hdl a (hle ▸ h)
    have hre : headingCore l = e := by
      show rdropW isJsSpace e = e
      exact rdropW_eq_self_of_getLast
        (fun a h => not_isJsSpace_of_not_junk (hlej a h))
    rw [hre]
    refine ⟨wsOk_dropWhile hwd, hlej, fun a h => head?_dropWhile isJsSpace d a h⟩

lemma headingCore_idem (l : List Char) :
    headingCore (headingCore l) = headingCore l := by
  obtain ⟨hws, hlast, hhead⟩ := headingCore_facts l
  show jsTrimL (rdropW isHeadTrailJunk (collapseWsL (headingCore l))) = headingCore l
  rw [show collapseWsL (headingCore l) = headingCore l from
        collapseGo_of_wsOk _ false hws,
      rdropW_eq_self_of_getLast hlast]
  show rdropW isJsSpace ((headingCore l).dropWhile isJsSpace) = headingCore l
  rw [dropWhile_eq_self_of_head hhead]
  exact rdropW_eq_self_of_getLast
    (fun a h => not_isJsSpace_of_not_junk (hlast a h))

lemma sanitizeHeading_idem (s : String) :
    sanitizeHeading (sanitizeHeading s) = sanitizeHeading s := by
  rw [sanitizeHeading_eq s]
  by_cases hlen : (headingCore s.data).length < 3
  · simp only [hlen, if_true]
    decide
  · simp only [hlen, if_false]
    rw [sanitizeHeading_eq]
    have hdata : (String.mk (headingCore s.data)).data = headingCore s.data := rfl
    rw [hdata, headingCore_idem]
    simp [hlen]

lemma filterMap_eq_self {α : Type} {l : List α} {f : α → Option α}
    (h : ∀ a ∈ l, f a = some a) : l.filterMap f = l := by
  induction l with
  | nil => rfl
  | cons a t ih =>
    rw [List.filterMap_cons, h a (by simp)]
    rw [ih (fun b hb => h b (by simp [hb]))]

lemma mem_normSections {src : List RawSection} {s : NoteSection}
    (h : s ∈ normSections src) :
    sanitizeHeading s.heading = s.heading ∧ s.heading ≠ "" ∧
    ∀ b ∈ s.bullets, b ≠ "" := by
  unfold normSections at h
  rw [List.mem_filterMap] at h
  obtain ⟨rs, _, hf⟩ := h
  by_cases hh : sanitizeHeadingOpt rs.heading = ""
  · simp [hh] at hf
  · simp only [hh, if_neg] at hf
    have hs : s = { heading := sanitizeHeadingOpt rs.heading,
                    bullets := normBullets rs.bullets } := by
      simpa [hh] using hf.symm
    subst hs
    refine ⟨?_, hh, ?_⟩
    · cases hrh : rs.heading with
      | none => simp [sanitizeHeadingOpt, hrh] at hh
      | some h0 =>
        simp only [sanitizeHeadingOpt, hrh]
        exact sanitizeHeading_idem h0
    · intro b hb
      cases hrb : rs.bullets with
      | none => simp [normBullets, hrb] at hb
      | some lb =>
        simp only [normBullets, hrb] at hb
        have := List.of_mem_filter hb
        simpa using this

lemma normalize_mem_sections {x : Option RawNotes} {s : NoteSection}
    (h : s ∈ (normalizeNotesState x).sections) :
    sanitizeHeading s.heading = s.heading ∧ s.heading ≠ "" ∧
    ∀ b ∈ s.bullets, b ≠ "" := by
  cases x with
  | none => simp [normalizeNotesState, defaultNotesState] at h
  | some r =>
    have h2 : s ∈ normSections (match r.sections with
      | some l => l
      | none => match r.outline with
        | some l => l
        | none => []) := by
      exact List.mem_of_mem_take h
    exact mem_normSections h2

lemma normalize_sections_length (x : Option RawNotes) :
    (normalizeNotesState x).sections.length ≤ 30 := by
  cases x with
  | none => simp [normalizeNotesState, defaultNotesState]
  | some r =>
    simp only [normalizeNotesState, List.length_take]
    omega

lemma normOptField_some_char {o : Option String} {t : String}
    (h : normOptField o = some t) : jsTrimS t = t ∧ t ≠ "" := by
  cases o with
  | none => simp [normOptField] at h
  | some u =>
    by_cases he : jsTrimS u = ""
    · simp [normOptField, he] at h
    · simp only [normOptField, he, if_neg] at h
      have ht : t = jsTrimS u := by simpa [he] using h.symm
      subst ht
      exact ⟨jsTrimS_idem u, he⟩

lemma normOptField_of_char {o : Option String}
    (h : ∀ t, o = some t → jsTrimS t = t ∧ t ≠ "") : normOptField o = o := by
  cases o with
  | none => rfl
  | some t =>
    obtain ⟨hfix, hne⟩ := h t rfl
    simp [normOptField, hfix, hne]

lemma normOptField_idem (o : Option String) :
    normOptField (normOptField o) = normOptField o :=
  normOptField_of_char (fun _ h => normOptField_some_char h)

lemma normalize_lastChunkId_char {x : Option RawNotes} {t : String}
    (h : (normalizeNotesState x).lastChunkId = some t) :
    jsTrimS t = t ∧ t ≠ "" := by
  cases x with
  | none => simp [normalizeNotesState, defaultNotesState] at h
  | some r =>
    simp only [normalizeNotesState] at h
    cases h1 : normOptField r.lastChunkId with
    | some u =>
      rw [h1] at h
      simp at h
      exact h ▸ normOptField_some_char h1
    | none =>
      rw [h1] at h
      simp at h
      exact normOptField_some_char h

lemma normalize_title_norm (x : Option RawNotes) :
    normOptField (normalizeNotesState x).title = (normalizeNotesState x).title := by
  cases x with
  | none => rfl
  | some r => simp [normalizeNotesState, normOptField_idem]

lemma normalize_lastUpdatedAt_norm (x : Option RawNotes) :
    normOptField (normalizeNotesState x).lastUpdatedAt =
      (normalizeNotesState x).lastUpdatedAt := by
  cases x with
  | none => rfl
  | some r => simp [normalizeNotesState, normOptField_idem]

lemma normSections_toRaw (x : Option RawNotes)
    (hfix : ∀ s ∈ (normalizeNotesState x).sections, ∀ b ∈ s.bullets,
      sanitizeBullet b = b) :
    normSections ((normalizeNotesState x).sections.map (fun s =>
      ({ heading := some s.heading,
         bullets := some (s.bullets.map some) } : RawSection))) =
    (normalizeNotesState x).sections := by
  unfold normSections
  rw [List.filterMap_map]
  apply filterMap_eq_self
  intro s hs
  obtain ⟨hhfix, hhne, hbne⟩ := normalize_mem_sections hs
  have hb : normBullets (some (s.bullets.map some)) = s.bullets := by
    show ((s.bullets.map some).map sanitizeBulletOpt).filter (fun b => b != "") =
      s.bullets
    rw [List.map_map]
    have h1 : s.bullets.map (sanitizeBulletOpt ∘ some) = s.bullets := by
      have h2 : s.bullets.map (sanitizeBulletOpt ∘ some) = s.bullets.map id := by
        apply List.map_congr_left
        intro b hb
        exact hfix s hs b hb
      rw [h2, List.map_id]
    rw [h1, List.filter_eq_self.mpr]
    intro b hb2
    simpa using hbne b hb2
  show (if sanitizeHeadingOpt (some s.heading) = "" then none else
    some ({ heading := sanitizeHeadingOpt (some s.heading),
            bullets := normBullets (some (s.bullets.map some)) } : NoteSection)) = some s
  show (if sanitizeHeading s.heading = "" then none else
    some ({ heading := sanitizeHeading s.heading,
            bullets := normBullets (some (s.bullets.map some)) } : NoteSection)) = some s
  rw [hhfix, if_neg hhne, hb]

/-- C1's idempotence, restricted to inputs whose once-sanitized bullets are
fixed points of `sanitizeBullet`. -/
theorem normalizeNotesState_idem_of_fixed_bullets (x : Option RawNotes)
    (hfix : ∀ s ∈ (normalizeNotesState x).sections, ∀ b ∈ s.bullets,
      sanitizeBullet b = b) :
    normalizeNS (normalizeNotesState x) = normalizeNotesState x := by
  have hsec := normSections_toRaw x hfix
  have ht := normalize_title_norm x
  have hu := normalize_lastUpdatedAt_norm x
  have hlen := normalize_sections_length x
  have hl : (match normOptField (normalizeNotesState x).lastChunkId with
      | some t => some t
      | none => (normOptField none : Option String)) =
      (normalizeNotesState x).lastChunkId := by
    cases hc : (normalizeNotesState x).lastChunkId with
    | none => rfl
    | some t =>
      obtain ⟨hfixt, hnet⟩ := normalize_lastChunkId_char hc
      simp [normOptField, hfixt, hnet]
  show ({ title := normOptField (normalizeNotesState x).title,
          sections := (normSections ((normalizeNotesState x).sections.map (fun s =>
            ({ heading := some s.heading,
               bullets := some (s.bullets.map some) } : RawSection)))).take 30,
          lastUpdatedAt := normOptField (normalizeNotesState x).lastUpdatedAt,
          lastChunkId := match normOptField (normalizeNotesState x).lastChunkId with
            | some t => some t
            | none => normOptField none } : NotesState) = normalizeNotesState x
  rw [ht, hu, hsec, List.take_of_length_le hlen, hl]

/-- A well-formed notes object whose bullet begins with two enumeration
prefixes; one sanitization pass strips only the first. -/
def c1Input : Option RawNotes :=
  some
    { title := none
      sections := some
        [{ heading := some "Alpha Beta"
           bullets := some [some "1. 2) abcdefghij"] }]
      outline := none
      lastUpdatedAt := none
      lastChunkId := none
      lastUpdatedChunkId := none }

/-- C1 counterexample: `normalizeNotesState` is not idempotent; the bullet
"1. 2) abcdefghij" sanitizes to "2) abcdefghij" on the first pass, and a
second pass strips the now leading "2) " as well. -/
theorem normalizeNotesState_not_idempotent :
    normalizeNS (normalizeNotesState c1Input) ≠ normalizeNotesState c1Input ∧
    (normalizeNotesState c1Input).sections.map NoteSection.bullets =
      [["2) abcdefghij"]] ∧
    (normalizeNS (normalizeNotesState c1Input)).sections.map NoteSection.bullets =
      [["abcdefghij"]] := by
  refine ⟨?_, by decide, by decide⟩
  decide

/-- Input for the C1 witness: every bullet is a fixed point of
`sanitizeBullet`. -/
def c1WitnessInput : Option RawNotes :=
  some
    { title := some "Biology Lecture"
      sections := some
        [{ heading := some "Cell Membrane Biology"
           bullets := some [some "the membrane is selectively permeable to ions"] }]
      outline := none
      lastUpdatedAt := some "2026-01-01T00:00:00.000Z"
      lastChunkId := some "chunk_1"
      lastUpdatedChunkId := none }

/-- C1 witness: the restricted idempotence theorem applied at a concrete
input whose sanitized bullets are fixed points. -/
theorem normalizeNotesState_idem_witness :
    normalizeNS (normalizeNotesState c1WitnessInput) =
      normalizeNotesState c1WitnessInput :=
  normalizeNotesState_idem_of_fixed_bullets c1WitnessInput (by decide)

/-- C3: after `enforceCumulativeQuality` there are at most 30 sections and
each section keeps at most 80 bullets, namely the most recent (tail)
portion of its de-duplicated bullet list. -/
theorem enforceCumulativeQuality_caps (prevDoc candDoc : Option RawNotes) :
    (enforceCumulativeQuality prevDoc candDoc).sections.length ≤ 30 ∧
    ∀ sec ∈ (enforceCumulativeQuality prevDoc candDoc).sections,
      sec.bullets.length ≤ 80 ∧
      ∃ pre, sec.bullets = takeLastN 80 (dedupeBullets pre) ∧
        List.IsSuffix sec.bullets (dedupeBullets pre) ∧
        (80 ≤ (dedupeBullets pre).length → sec.bullets.length = 80) := by
  constructor
  · show (List.take 30 _).length ≤ 30
    rw [List.length_take]
    omega
  · intro sec hsec
    have h1 : sec ∈ ((mergedSections (normalizeNotesState prevDoc)
        (normalizeNotesState candDoc)).map capSection).filter keepSection :=
      List.mem_of_mem_take hsec
    have h2 := List.mem_of_mem_filter h1
    obtain ⟨s0, _, hcap⟩ := List.mem_map.mp h2
    have hb : sec.bullets = takeLastN 80 (dedupeBullets s0.bullets) := by
      rw [← hcap]
      rfl
    have hlen : sec.bullets.length =
        (dedupeBullets s0.bullets).length - ((dedupeBullets s0.bullets).length - 80) := by
      rw [hb]
      exact List.length_drop _ _
    refine ⟨by omega, s0.bullets, hb, ?_, by omega⟩
    rw [hb]
    exact List.drop_suffix _ _

/-- Previous document for the C3 and C4 witnesses. -/
def qualWitnessPrev : Option RawNotes :=
  some
    { title := some "Biology Lecture"
      sections := some
        [{ heading := some "Cell Membrane Biology"
           bullets := some [some "the membrane is selectively permeable to ions"] }]
      outline := none
      lastUpdatedAt := none
      lastChunkId := none
      lastUpdatedChunkId := none }

/-- Candidate document for the C3 and C4 witnesses. -/
def qualWitnessCand : Option RawNotes :=
  some
    { title := none
      sections := some
        [{ heading := some "Cell Membrane Biology"
           bullets := some [some "osmosis moves water across the membrane"] }]
      outline := none
      lastUpdatedAt := none
      lastChunkId := some "chunk_2"
      lastUpdatedChunkId := none }

/-- C3 witness: the cap theorem applied at a concrete merged document and a
concrete member section. -/
theorem enforceCumulativeQuality_caps_witness :
    (enforceCumulativeQuality qualWitnessPrev qualWitnessCand).sections.length ≤ 30 ∧
    ({ heading := "Cell Membrane Biology"
       bullets := ["the membrane is selectively permeable to ions",
                   "osmosis moves water across the membrane"] } : NoteSection).bullets.length ≤ 80 :=
  ⟨(enforceCumulativeQuality_caps qualWitnessPrev qualWitnessCand).1,
   ((enforceCumulativeQuality_caps qualWitnessPrev qualWitnessCand).2
      { heading := "Cell Membrane Biology"
        bullets := ["the membrane is selectively permeable to ions",
                    "osmosis moves water across the membrane"] } (by decide)).1⟩

lemma dedupeGo_extends (l : List String) :
    ∀ out, ∃ ext, dedupeGo out l = out ++ ext := by
  induction l with
  | nil => intro out; exact ⟨[], by simp [dedupeGo]⟩
  | cons raw rest ih =>
    intro out
    show (∃ ext, (if sanitizeBullet raw = "" then dedupeGo out rest
      else if out.any (fun e => isNearDuplicateText e (sanitizeBullet raw)) then
        dedupeGo out rest
      else dedupeGo (out ++ [sanitizeBullet raw]) rest) = out ++ ext)
    by_cases h1 : sanitizeBullet raw = ""
    · simpa [h1] using ih out
    · by_cases h2 : out.any (fun e => isNearDuplicateText e (sanitizeBullet raw)) = true
      · simpa [h1, h2] using ih out
      · obtain ⟨ext, hext⟩ := ih (out ++ [sanitizeBullet raw])
        refine ⟨sanitizeBullet raw :: ext, ?_⟩
        simp only [h1, h2, if_neg, if_false, Bool.false_eq_true]
        simp [hext]

lemma dedupe_cons_of_fixed {b : String} (l : List String)
    (hfix : sanitizeBullet b = b) (hne : b ≠ "") :
    ∃ ext, dedupeBullets (b :: l) = b :: ext := by
  show ∃ ext, dedupeGo [] (b :: l) = b :: ext
  have h1 : dedupeGo [] (b :: l) = dedupeGo [b] l := by
    show (if sanitizeBullet b = "" then dedupeGo [] l
      else if List.any [] (fun e => isNearDuplicateText e (sanitizeBullet b)) then
        dedupeGo [] l
      else dedupeGo ([] ++ [sanitizeBullet b]) l) = dedupeGo [b] l
    rw [hfix]
    simp [hne]
  rw [h1]
  obtain ⟨ext, hext⟩ := dedupeGo_extends l [b]
  exact ⟨ext, by simpa using hext⟩

lemma mergeStep_preserves {acc : List NoteSection} (inc : NoteSection)
    {i : ℕ} {H b₀ : String} {r : List String}
    (hfix : sanitizeBullet b₀ = b₀) (hbne : b₀ ≠ "")
    (h : acc[i]? = some { heading := H, bullets := b₀ :: r }) :
    ∃ r', (mergeStep acc inc)[i]? = some { heading := H, bullets := b₀ :: r' } := by
  have hlt : i < acc.length := by
    rcases List.getElem?_eq_some.mp h with ⟨hl, _⟩
    exact hl
  unfold mergeStep
  dsimp only
  split
  · exact ⟨r, h⟩
  · split
    · next j hfind =>
      unfold mergeInto
      split
      · next old hold =>
        by_cases hij : i = j
        · subst hij
          have holdv : old = { heading := H, bullets := b₀ :: r } := by
            rw [h] at hold
            exact (Option.some_injective _ hold).symm
          subst holdv
          obtain ⟨ext, hext⟩ := dedupe_cons_of_fixed
            (r ++ dedupeBullets inc.bullets) hfix hbne
          refine ⟨ext, ?_⟩
          rw [List.getElem?_set_self hlt]
          simp only [List.cons_append] at hext ⊢
          simp [hext]
        · exact ⟨r, by rw [List.getElem?_set_ne (fun he => hij he.symm)]; exact h⟩
      · exact ⟨r, h⟩
    · split
      · exact ⟨r, by rw [List.getElem?_append_left hlt]; exact h⟩
      · exact ⟨r, h⟩

lemma foldl_mergeStep_preserves (cands : List NoteSection) :
    ∀ (acc : List NoteSection) (i : ℕ) (H b₀ : String) (r : List String),
    sanitizeBullet b₀ = b₀ → b₀ ≠ "" →
    acc[i]? = some { heading := H, bullets := b₀ :: r } →
    ∃ r', (cands.foldl mergeStep acc)[i]? =
      some { heading := H, bullets := b₀ :: r' } := by
  induction cands with
  | nil => intro acc i H b₀ r _ _ h; exact ⟨r, h⟩
  | cons c rest ih =>
    intro acc i H b₀ r hfix hbne h
    obtain ⟨r1, h1⟩ := mergeStep_preserves c hfix hbne h
    exact ih (mergeStep acc c) i H b₀ r1 hfix hbne h1

lemma mem_take_filter {α : Type} (P : α → Bool) :
    ∀ (l : List α) (i n : ℕ) (x : α),
    l[i]? = some x → P x = true → i < n → x ∈ (l.filter P).take n := by
  intro l
  induction l with
  | nil => intro i n x h; simp at h
  | cons a t ih =>
    intro i n x h hp hn
    cases i with
    | zero =>
      have hx : a = x := by simpa using h
      subst hx
      cases n with
      | zero => omega
      | succ m => simp [List.filter_cons, hp]
    | succ j =>
      have ht : t[j]? = some x := by simpa using h
      by_cases hpa : P a = true
      · cases n with
        | zero => omega
        | succ m =>
          rw [List.filter_cons_of_pos hpa, List.take_succ_cons]
          exact List.mem_cons_of_mem a (ih j m x ht hp (by omega))
      · rw [List.filter_cons_of_neg (by simpa using hpa)]
        exact ih j n x ht hp (by omega)

lemma takeLastN_cons_ne_nil (n : ℕ) (hn : 0 < n) (b : String) (l : List String) :
    takeLastN n (b :: l) ≠ [] := by
  have hlen : (takeLastN n (b :: l)).length = (b :: l).length - ((b :: l).length - n) :=
    List.length_drop _ _
  have : 0 < (takeLastN n (b :: l)).length := by
    simp only [List.length_cons] at hlen
    omega
  exact (List.length_pos).mp this

/-- C4 (amended): every section of the normalized previous document with a
nonempty bullet list whose bullets are fixed points of re-sanitization
survives `enforceCumulativeQuality` by heading; automatic synthesis never
removes such a section. -/
theorem enforce_preserves_prev_headings (prevDoc candDoc : Option RawNotes)
    (sec : NoteSection)
    (hmem : sec ∈ (normalizeNotesState prevDoc).sections)
    (hne : sec.bullets ≠ [])
    (hfix : ∀ b ∈ sec.bullets, sanitizeBullet b = b) :
    sec.heading ∈
      (enforceCumulativeQuality prevDoc candDoc).sections.map NoteSection.heading := by
  obtain ⟨hhfix, hhne, hbne⟩ := normalize_mem_sections hmem
  obtain ⟨i, hilt, hgi⟩ := List.getElem_of_mem hmem
  obtain ⟨b₀, rest, hbl⟩ := List.exists_cons_of_ne_nil hne
  have hb0fix : sanitizeBullet b₀ = b₀ := hfix b₀ (by rw [hbl]; simp)
  have hb0ne : b₀ ≠ "" := hbne b₀ (by rw [hbl]; simp)
  -- the base section list holds the de-duplicated previous section at index i
  have hbase : ((normalizeNotesState prevDoc).sections.map (fun s =>
      ({ heading := s.heading, bullets := dedupeBullets s.bullets } : NoteSection)))[i]? =
      some { heading := sec.heading, bullets := dedupeBullets sec.bullets } := by
    rw [List.getElem?_map, List.getElem?_eq_getElem hilt, hgi]
    rfl
  obtain ⟨ext, hext⟩ := dedupe_cons_of_fixed rest hb0fix hb0ne
  have hbase2 : ((normalizeNotesState prevDoc).sections.map (fun s =>
      ({ heading := s.heading, bullets := dedupeBullets s.bullets } : NoteSection)))[i]? =
      some { heading := sec.heading, bullets := b₀ :: ext } := by
    rw [hbase, hbl, hext]
  -- the heading and a nonempty bullet head survive the candidate fold
  obtain ⟨r', hM⟩ := foldl_mergeStep_preserves
    (normalizeNotesState candDoc).sections _ i sec.heading b₀ ext hb0fix hb0ne hbase2
  obtain ⟨ext2, hext2⟩ := dedupe_cons_of_fixed r' hb0fix hb0ne
  -- the capped section still has the same heading and a nonempty bullet list
  have hcap : ((mergedSections (normalizeNotesState prevDoc)
        (normalizeNotesState candDoc)).map capSection)[i]? =
      some { heading := sec.heading,
             bullets := takeLastN 80 (b₀ :: ext2) } := by
    rw [List.getElem?_map]
    unfold mergedSections
    rw [hM]
    show some (capSection _) = _
    unfold capSection
    rw [hext2, hhfix]
  have hkeep : keepSection (⟨sec.heading, takeLastN 80 (b₀ :: ext2)⟩ : NoteSection) = true := by
    unfold keepSection
    have h1 : takeLastN 80 (b₀ :: ext2) ≠ [] :=
      takeLastN_cons_ne_nil 80 (by omega) b₀ ext2
    simp [hhne, h1]
  have hi30 : i < 30 := by
    have := normalize_sections_length prevDoc
    omega
  have hsecmem : (⟨sec.heading, takeLastN 80 (b₀ :: ext2)⟩ : NoteSection) ∈
      (enforceCumulativeQuality prevDoc candDoc).sections := by
    show _ ∈ ((((mergedSections (normalizeNotesState prevDoc)
      (normalizeNotesState candDoc)).map capSection).filter keepSection).take 30)
    exact mem_take_filter keepSection _ i 30 _ hcap hkeep hi30
  have := List.mem_map_of_mem NoteSection.heading hsecmem
  simpa using this

/-- A previous document with a zero-bullet section: `normalizeNotesState`
keeps it, but the final filter of `enforceCumulativeQuality` drops it. -/
def c4Input : Option RawNotes :=
  some
    { title := none
      sections := some [{ heading := some "Alpha Beta", bullets := some [] }]
      outline := none
      lastUpdatedAt := none
      lastChunkId := none
      lastUpdatedChunkId := none }

/-- C4 counterexample: a section present in the normalized previous
document (heading "Alpha Beta", no bullets) does not appear in the output
of `enforceCumulativeQuality`. -/
theorem enforce_deletes_empty_prev_section :
    (normalizeNotesState c4Input).sections.map NoteSection.heading = ["Alpha Beta"] ∧
    (enforceCumulativeQuality c4Input none).sections.map NoteSection.heading = [] ∧
    "Alpha Beta" ∉
      (enforceCumulativeQuality c4Input none).sections.map NoteSection.heading := by
  refine ⟨by decide, by decide, by decide⟩

/-- C4 witness: the amended preservation theorem applied at concrete
documents. -/
theorem enforce_preserves_prev_headings_witness :
    "Cell Membrane Biology" ∈
      (enforceCumulativeQuality qualWitnessPrev qualWitnessCand).sections.map
        NoteSection.heading :=
  enforce_preserves_prev_headings qualWitnessPrev qualWitnessCand
    { heading := "Cell Membrane Biology"
      bullets := ["the membrane is selectively permeable to ions"] }
    (by decide) (by decide) (by decide)

lemma strIncludes_nil_needle (hay : List Char) : strIncludes hay [] = true := by
  cases hay <;> rfl

lemma tokenSetSimilarity_left_empty (b : String) : tokenSetSimilarity "" b = 0 := rfl

lemma semanticTextKey_empty : semanticTextKey "" = "" := rfl

lemma tokenSetSimilarity_right_empty (a : String) : tokenSetSimilarity a "" = 0 := by
  simp only [tokenSetSimilarity]
  have hb : (wordsBy (fun c => decide (c = ' ')) ("" : String).data).dedup.length = 0 :=
    rfl
  simp [hb]

/-- C5 (amended): token-set similarity at least 0.82 between semantic keys
always yields a near-duplicate verdict; below 0.82 the verdict is false
provided the keys are also unequal and neither contains the other. -/
theorem isNearDuplicateText_threshold (a b : String) :
    (mkRat 82 100 ≤ tokenSetSimilarity (semanticTextKey a) (semanticTextKey b) →
      isNearDuplicateText a b = true) ∧
    (tokenSetSimilarity (semanticTextKey a) (semanticTextKey b) < mkRat 82 100 →
      semanticTextKey a ≠ semanticTextKey b →
      strIncludes (semanticTextKey a).data (semanticTextKey b).data = false →
      strIncludes (semanticTextKey b).data (semanticTextKey a).data = false →
      isNearDuplicateText a b = false) := by
  constructor
  · intro hsim
    have hpos : 0 < tokenSetSimilarity (semanticTextKey a) (semanticTextKey b) :=
      lt_of_lt_of_le (by decide) hsim
    have han : semanticTextKey a ≠ "" := by
      intro he
      rw [he, tokenSetSimilarity_left_empty] at hpos
      exact lt_irrefl 0 hpos
    have hbn : semanticTextKey b ≠ "" := by
      intro he
      rw [he, tokenSetSimilarity_right_empty] at hpos
      exact lt_irrefl 0 hpos
    have ha : a ≠ "" := by
      intro he
      exact han (by subst he; exact semanticTextKey_empty)
    have hb : b ≠ "" := by
      intro he
      exact hbn (by subst he; exact semanticTextKey_empty)
    unfold isNearDuplicateText
    dsimp only
    split_ifs <;> simp_all
  · intro hlt hne hi1 hi2
    have han : semanticTextKey a ≠ "" := by
      intro he
      rw [show (semanticTextKey a).data = [] from by rw [he]] at hi2
      rw [strIncludes_nil_needle] at hi2
      exact Bool.true_eq_false.mp hi2
    have hbn : semanticTextKey b ≠ "" := by
      intro he
      rw [show (semanticTextKey b).data = [] from by rw [he]] at hi1
      rw [strIncludes_nil_needle] at hi1
      exact Bool.true_eq_false.mp hi1
    have ha : a ≠ "" := by
      intro he
      exact han (by subst he; exact semanticTextKey_empty)
    have hb : b ≠ "" := by
      intro he
      exact hbn (by subst he; exact semanticTextKey_empty)
    have hnle : ¬(mkRat 82 100 ≤
        tokenSetSimilarity (semanticTextKey a) (semanticTextKey b)) :=
      not_le.mpr hlt
    unfold isNearDuplicateText
    dsimp only
    split_ifs <;> simp_all

/-- Bullet text whose key has nine tokens. -/
def c5a : String := "alpha beta gamma delta epsilon zeta eta theta iota"

/-- The same bullet extended by two tokens; the shorter key is a substring
of the longer one while the token-set similarity is 9/11, just below
0.82. -/
def c5b : String := "alpha beta gamma delta epsilon zeta eta theta iota kappa lambda"

/-- C5 counterexample: a pair with key similarity 9/11 (below 0.82) that
`isNearDuplicateText` still reports as a near duplicate, through the key
containment branch. -/
theorem isNearDuplicateText_true_below_threshold :
    tokenSetSimilarity (semanticTextKey c5a) (semanticTextKey c5b) = mkRat 9 11 ∧
    tokenSetSimilarity (semanticTextKey c5a) (semanticTextKey c5b) < mkRat 82 100 ∧
    isNearDuplicateText c5a c5b = true := by
  refine ⟨by decide, by decide, by decide⟩

/-- C5 witness: the threshold theorem applied at a pair with similarity 5/6
(at least 0.82) and at a disjoint pair with similarity 0. -/
theorem isNearDuplicateText_threshold_witness :
    isNearDuplicateText "Diffusion moves molecules down the concentration gradient"
      "Diffusion moves molecules along the concentration gradient" = true ∧
    isNearDuplicateText "alpha beta gamma" "delta epsilon zeta" = false :=
  ⟨(isNearDuplicateText_threshold
      "Diffusion moves molecules down the concentration gradient"
      "Diffusion moves molecules along the concentration gradient").1 (by decide),
   (isNearDuplicateText_threshold "alpha beta gamma" "delta epsilon zeta").2
      (by decide) (by decide) (by decide) (by decide)⟩

namespace Cap

/-- A transcript entry of the content script (`appendTranscriptEntry`);
media times are modelled as rationals, wall-clock milliseconds as
integers. -/
structure TranscriptEntry where
  text : String
  startTime : ℚ
  endTime : ℚ
  tStart : ℚ
  tEnd : ℚ
  timestamp : ℤ
deriving DecidableEq, Repr

/-- The in-progress chunk of the content script. -/
structure Chunk where
  chunkId : String
  tStart : ℚ
  tEnd : ℚ
  parts : List String
  text : String
deriving DecidableEq, Repr

/-- The mutable state of the caption accumulator. -/
structure CsState where
  isCapturing : Bool
  transcriptBuffer : List TranscriptEntry
  currentChunk : Option Chunk
  chunkStartWallTime : Option ℤ
  lastCaptionUpdateAt : ℤ
deriving DecidableEq, Repr

/-- Messages the content script sends through `chrome.runtime.sendMessage`;
only the payloads the claims inspect are carried. -/
inductive CsMsg where
  | finalizeChunkMsg (chunkId : String) (tStart tEnd : ℚ) (text : String)
      (tailContext : String)
  | transcriptUpdateMsg (transcript : List TranscriptEntry)
      (currentChunkText : Option String)
  | statusUpdateMsg
deriving DecidableEq, Repr

def isFinalizeMsg : CsMsg → Bool
  | .finalizeChunkMsg .. => true
  | _ => false

/-- `normalizeText`: trim, collapse whitespace, strip zero-width
characters. -/
def normalizeText (s : String) : String :=
  String.mk ((collapseWsL (jsTrimL s.data)).filter (fun c => c != '​'))

/-- `getTailContext`: space-joined texts of the entries from the last 30
seconds of media time. -/
def getTailContext (tNow : ℚ) (buffer : List TranscriptEntry) : String :=
  String.intercalate " "
    ((buffer.filter (fun e => decide (tNow - 30 ≤ e.startTime))).map (fun e => e.text))

/-- `appendChunkPart`: push a part onto the open chunk, or open a fresh
chunk (with the supplied generated id) when none exists. -/
def appendChunkPart (text : String) (tNow : ℚ) (now : ℤ) (freshId : String)
    (chunk : Option Chunk) (wall : Option ℤ) : Option Chunk × Option ℤ :=
  match chunk with
  | none =>
    (some { chunkId := freshId, tStart := tNow, tEnd := tNow,
            parts := [text], text := text }, some now)
  | some c =>
    (some { c with parts := c.parts ++ [text],
                   text := String.intercalate " " (c.parts ++ [text]),
                   tEnd := tNow }, wall)

/-- `replaceLastChunkPart`: a no-op when no chunk (or an empty parts list)
exists; otherwise replace the last part and rebuild the joined text. -/
def replaceLastChunkPart (text : String) (tNow : ℚ) :
    Option Chunk → Option Chunk
  | none => none
  | some c =>
    if c.parts.isEmpty then some c
    else some { c with parts := c.parts.dropLast ++ [text],
                       text := String.intercalate " " (c.parts.dropLast ++ [text]),
                       tEnd := tNow }

/-- `finalizeChunk`: skipped (without reset) when no chunk is open or its
text is whitespace; otherwise emit the `FINALIZE_CHUNK` message and reset
the chunk state. -/
def finalizeChunk (tNow : ℚ) (st : CsState) : CsState × List CsMsg :=
  match st.currentChunk with
  | none => (st, [])
  | some c =>
    if jsTrimS c.text = "" then (st, [])
    else
      ({ st with currentChunk := none, chunkStartWallTime := none },
       [.finalizeChunkMsg c.chunkId c.tStart c.tEnd c.text
          (getTailContext tNow st.transcriptBuffer)])

/-- The finalize predicate of `maybeFinalizeChunk`: 180 s of wall-clock
time, more than 5000 characters, or a paused/ended video. -/
def shouldFinalizeB (now : ℤ) (videoStopped : Bool) (chunk : Option Chunk)
    (wall : Option ℤ) : Bool :=
  match chunk, wall with
  | some c, some w =>
    decide (180000 ≤ now - w) || decide (5000 < c.text.length) || videoStopped
  | _, _ => false

/-- `maybeFinalizeChunk`. -/
def maybeFinalizeChunk (now : ℤ) (videoStopped : Bool) (tNow : ℚ)
    (st : CsState) : CsState × List CsMsg :=
  if shouldFinalizeB now videoStopped st.currentChunk st.chunkStartWallTime then
    finalizeChunk tNow st
  else (st, [])

/-- The `TRANSCRIPT_UPDATE` payload (`transcript.slice(-50)` plus the
current chunk summary). -/
def transcriptUpdateOf (st : CsState) : CsMsg :=
  .transcriptUpdateMsg (takeLastN 50 st.transcriptBuffer)
    (st.currentChunk.map (fun c => c.text))

/-- `handleCaptionChange` of the content script.  DOM lookups are modelled
by the `captionAttached` flag and the `tNow` (media time), `now`
(wall-clock), `videoStopped` and `freshId` (generated chunk id) inputs. -/
def handleCaptionChange (raw : String) (tNow : ℚ) (now : ℤ)
    (videoStopped : Bool) (freshId : String) (captionAttached : Bool)
    (st : CsState) : CsState × List CsMsg :=
  if !(st.isCapturing && captionAttached) then (st, [])
  else
    let text := normalizeText raw
    if text = "" then (st, [])
    else
      match st.transcriptBuffer.getLast? with
      | some le =>
        if le.text = text then (st, [])
        else if startsWithStr text le.text then
          let st1 : CsState :=
            { st with
                transcriptBuffer := st.transcriptBuffer.dropLast ++
                  [{ le with text := text, endTime := tNow, tEnd := tNow,
                             timestamp := now }]
                currentChunk := replaceLastChunkPart text tNow st.currentChunk
                lastCaptionUpdateAt := now }
          let r := maybeFinalizeChunk now videoStopped tNow st1
          (r.1, r.2 ++ [transcriptUpdateOf r.1, .statusUpdateMsg])
        else
          let buf0 :=
            if decide (le.startTime ≤ tNow) then
              st.transcriptBuffer.dropLast ++
                [{ le with endTime := tNow, tEnd := tNow }]
            else st.transcriptBuffer
          let entry : TranscriptEntry :=
            { text := text, startTime := tNow, endTime := tNow,
              tStart := tNow, tEnd := tNow, timestamp := now }
          let cw := appendChunkPart text tNow now freshId st.currentChunk
            st.chunkStartWallTime
          let st1 : CsState :=
            { st with transcriptBuffer := buf0 ++ [entry]
                      currentChunk := cw.1
                      chunkStartWallTime := cw.2
                      lastCaptionUpdateAt := now }
          let r := maybeFinalizeChunk now videoStopped tNow st1
          (r.1, r.2 ++ [transcriptUpdateOf r.1, .statusUpdateMsg])
      | none =>
        let entry : TranscriptEntry :=
          { text := text, startTime := tNow, endTime := tNow,
            tStart := tNow, tEnd := tNow, timestamp := now }
        let cw := appendChunkPart text tNow now freshId st.currentChunk
          st.chunkStartWallTime
        let st1 : CsState :=
          { st with transcriptBuffer := st.transcriptBuffer ++ [entry]
                    currentChunk := cw.1
                    chunkStartWallTime := cw.2
                    lastCaptionUpdateAt := now }
        let r := maybeFinalizeChunk now videoStopped tNow st1
        (r.1, r.2 ++ [transcriptUpdateOf r.1, .statusUpdateMsg])

/-- The `CLEAR_SESSION` branch of the content-script message listener:
reset all transcript and chunk state and broadcast an empty transcript;
no chunk is finalized. -/
def clearSessionCs (_st : CsState) : CsState × List CsMsg :=
  ({ isCapturing := false, transcriptBuffer := [], currentChunk := none,
     chunkStartWallTime := none, lastCaptionUpdateAt := 0 },
   [.transcriptUpdateMsg [] none, .statusUpdateMsg])

end Cap

lemma maybeFinalize_buffer (now : ℤ) (videoStopped : Bool) (tNow : ℚ)
    (st : Cap.CsState) :
    (Cap.maybeFinalizeChunk now videoStopped tNow st).1.transcriptBuffer =
      st.transcriptBuffer := by
  unfold Cap.maybeFinalizeChunk
  split
  · unfold Cap.finalizeChunk
    cases st.currentChunk with
    | none => rfl
    | some c =>
      dsimp only
      split <;> rfl
  · rfl

lemma maybeFinalize_of_not {now : ℤ} {videoStopped : Bool} {tNow : ℚ}
    {st : Cap.CsState}
    (h : Cap.shouldFinalizeB now videoStopped st.currentChunk
      st.chunkStartWallTime = false) :
    Cap.maybeFinalizeChunk now videoStopped tNow st = (st, []) := by
  unfold Cap.maybeFinalizeChunk
  rw [h]
  rfl

lemma dropLast_append_length {α : Type} {l : List α} {x y : α}
    (h : l.getLast? = some x) : (l.dropLast ++ [y]).length = l.length := by
  cases l with
  | nil => simp at h
  | cons a t => simp [List.length_dropLast]

/-- C6 counterexample: a caption exactly equal to the previous entry also
starts with it, but the handler drops it without replacing the entry; its
end time keeps the stored value 5 instead of the event time 10. -/
def c6State : Cap.CsState :=
  { isCapturing := true
    transcriptBuffer := [{ text := "hello there", startTime := 2, endTime := 5,
                           tStart := 2, tEnd := 5, timestamp := 100 }]
    currentChunk := some { chunkId := "c1", tStart := 2, tEnd := 5,
                           parts := ["hello there"], text := "hello there" }
    chunkStartWallTime := some 0
    lastCaptionUpdateAt := 100 }

/-- C6 counterexample theorem. -/
theorem caption_equal_text_not_replaced :
    startsWithStr (Cap.normalizeText "hello there") "hello there" = true ∧
    Cap.handleCaptionChange "hello there" 10 400 false "cX" true c6State =
      (c6State, []) ∧
    (Cap.handleCaptionChange "hello there" 10 400 false "cX" true
        c6State).1.transcriptBuffer.map Cap.TranscriptEntry.endTime = [5] ∧
    (5 : ℚ) ≠ 10 := by
  refine ⟨by decide, by decide, by decide, by decide⟩

/-- C6 (amended): a caption that strictly extends the previous entry
(starts with it and differs) replaces that entry text and end time in
place, appends no new entry, and replaces the last part of the in-progress
chunk (when the finalize predicate does not fire on the updated chunk). -/
theorem caption_prefix_growth_replaces (raw : String) (tNow : ℚ) (now : ℤ)
    (videoStopped : Bool) (freshId : String) (st : Cap.CsState)
    (le : Cap.TranscriptEntry)
    (hcap : st.isCapturing = true)
    (hlast : st.transcriptBuffer.getLast? = some le)
    (hne : Cap.normalizeText raw ≠ "")
    (hneq : Cap.normalizeText raw ≠ le.text)
    (hpre : startsWithStr (Cap.normalizeText raw) le.text = true) :
    (Cap.handleCaptionChange raw tNow now videoStopped freshId true
        st).1.transcriptBuffer =
      st.transcriptBuffer.dropLast ++
        [{ le with text := Cap.normalizeText raw, endTime := tNow, tEnd := tNow,
                   timestamp := now }] ∧
    (Cap.handleCaptionChange raw tNow now videoStopped freshId true
        st).1.transcriptBuffer.length = st.transcriptBuffer.length ∧
    (Cap.shouldFinalizeB now videoStopped
        (Cap.replaceLastChunkPart (Cap.normalizeText raw) tNow st.currentChunk)
        st.chunkStartWallTime = false →
      (Cap.handleCaptionChange raw tNow now videoStopped freshId true
          st).1.currentChunk =
        Cap.replaceLastChunkPart (Cap.normalizeText raw) tNow st.currentChunk) := by
  have hneq2 : ¬(le.text = Cap.normalizeText raw) := fun h => hneq h.symm
  have hmain : Cap.handleCaptionChange raw tNow now videoStopped freshId true st =
      (let st1 : Cap.CsState :=
        { st with
            transcriptBuffer := st.transcriptBuffer.dropLast ++
              [{ le with text := Cap.normalizeText raw, endTime := tNow,
                         tEnd := tNow, timestamp := now }]
            currentChunk := Cap.replaceLastChunkPart (Cap.normalizeText raw)
              tNow st.currentChunk
            lastCaptionUpdateAt := now }
       let r := Cap.maybeFinalizeChunk now videoStopped tNow st1
       (r.1, r.2 ++ [Cap.transcriptUpdateOf r.1, .statusUpdateMsg])) := by
    unfold Cap.handleCaptionChange
    rw [hlast]
    simp [hcap, hne, hneq2, hpre]
  rw [hmain]
  dsimp only
  refine ⟨?_, ?_, ?_⟩
  · rw [maybeFinalize_buffer]
  · rw [maybeFinalize_buffer]
    exact dropLast_append_length hlast
  · intro hsf
    rw [maybeFinalize_of_not hsf]

/-- State for the C6 witness: one entry "the cell membrane is" with an open
chunk holding the same single part. -/
def c6WitnessState : Cap.CsState :=
  { isCapturing := true
    transcriptBuffer := [{ text := "the cell membrane is", startTime := 0,
                           endTime := 0, tStart := 0, tEnd := 0, timestamp := 50 }]
    currentChunk := some { chunkId := "c1", tStart := 0, tEnd := 0,
                           parts := ["the cell membrane is"],
                           text := "the cell membrane is" }
    chunkStartWallTime := some 1000
    lastCaptionUpdateAt := 50 }

/-- C6 witness: the spec scenario; the grown caption leaves a single
transcript entry with the longer text and rewrites the chunk part. -/
theorem caption_prefix_growth_witness :
    (Cap.handleCaptionChange "the cell membrane is semi-permeable" 3 2000 false
        "cY" true c6WitnessState).1.transcriptBuffer =
      [{ text := "the cell membrane is semi-permeable", startTime := 0,
         endTime := 3, tStart := 0, tEnd := 3, timestamp := 2000 }] ∧
    (Cap.handleCaptionChange "the cell membrane is semi-permeable" 3 2000 false
        "cY" true c6WitnessState).1.currentChunk =
      some { chunkId := "c1", tStart := 0, tEnd := 3,
             parts := ["the cell membrane is semi-permeable"],
             text := "the cell membrane is semi-permeable" } := by
  have h := caption_prefix_growth_replaces
    "the cell membrane is semi-permeable" 3 2000 false "cY" c6WitnessState
    { text := "the cell membrane is", startTime := 0, endTime := 0,
      tStart := 0, tEnd := 0, timestamp := 50 }
    (by decide) (by decide) (by decide) (by decide) (by decide)
  refine ⟨h.1.trans (by decide), (h.2.2 (by decide)).trans (by decide)⟩

/-- State for the C7 counterexample: capture running with an in-progress
chunk holding non-whitespace text. -/
def c7State : Cap.CsState :=
  { isCapturing := true
    transcriptBuffer := [{ text := "hello there friends", startTime := 0,
                           endTime := 5, tStart := 0, tEnd := 5, timestamp := 100 }]
    currentChunk := some { chunkId := "c1", tStart := 0, tEnd := 5,
                           parts := ["hello there friends"],
                           text := "hello there friends" }
    chunkStartWallTime := some 0
    lastCaptionUpdateAt := 100 }

/-- C7 counterexample: a clear-session event while a chunk with non-empty
text is open discards the chunk without emitting any FinalizedChunk
message. -/
theorem clearSession_emits_no_finalize :
    jsTrimS "hello there friends" ≠ "" ∧
    (c7State.currentChunk.map (fun c => c.text)) = some "hello there friends" ∧
    (Cap.clearSessionCs c7State).2.countP Cap.isFinalizeMsg = 0 ∧
    (Cap.clearSessionCs c7State).1.currentChunk = none := by
  refine ⟨by decide, by decide, by decide, by decide⟩

/-- C7 (amended): clear-session always resets the transcript and chunk
state (and stops capturing) without finalizing: no FinalizedChunk message
is ever emitted by the clear-session handler. -/
theorem clearSession_resets_without_finalize (st : Cap.CsState) :
    (Cap.clearSessionCs st).1.currentChunk = none ∧
    (Cap.clearSessionCs st).1.chunkStartWallTime = none ∧
    (Cap.clearSessionCs st).1.transcriptBuffer = [] ∧
    (Cap.clearSessionCs st).1.isCapturing = false ∧
    (Cap.clearSessionCs st).2.all (fun m => !Cap.isFinalizeMsg m) = true :=
  ⟨rfl, rfl, rfl, rfl, rfl⟩

/-- C10: a prefix-growth caption event arriving in the NoChunk state keeps
the chunk state at NoChunk: the grown text only updates the transcript
entry, no chunk is opened, and no FinalizedChunk message is emitted. -/
theorem caption_prefix_growth_no_chunk (raw : String) (tNow : ℚ) (now : ℤ)
    (videoStopped : Bool) (freshId : String) (st : Cap.CsState)
    (le : Cap.TranscriptEntry)
    (hcap : st.isCapturing = true)
    (hchunk : st.currentChunk = none)
    (hlast : st.transcriptBuffer.getLast? = some le)
    (hne : Cap.normalizeText raw ≠ "")
    (hneq : Cap.normalizeText raw ≠ le.text)
    (hpre : startsWithStr (Cap.normalizeText raw) le.text = true) :
    (Cap.handleCaptionChange raw tNow now videoStopped freshId true
        st).1.currentChunk = none ∧
    (Cap.handleCaptionChange raw tNow now videoStopped freshId true
        st).1.chunkStartWallTime = st.chunkStartWallTime ∧
    (Cap.handleCaptionChange raw tNow now videoStopped freshId true
        st).1.transcriptBuffer =
      st.transcriptBuffer.dropLast ++
        [{ le with text := Cap.normalizeText raw, endTime := tNow, tEnd := tNow,
                   timestamp := now }] ∧
    (Cap.handleCaptionChange raw tNow now videoStopped freshId true
        st).2.all (fun m => !Cap.isFinalizeMsg m) = true := by
  have hneq2 : ¬(le.text = Cap.normalizeText raw) := fun h => hneq h.symm
  have hmain : Cap.handleCaptionChange raw tNow now videoStopped freshId true st =
      (let st1 : Cap.CsState :=
        { st with
            transcriptBuffer := st.transcriptBuffer.dropLast ++
              [{ le with text := Cap.normalizeText raw, endTime := tNow,
                         tEnd := tNow, timestamp := now }]
            currentChunk := Cap.replaceLastChunkPart (Cap.normalizeText raw)
              tNow st.currentChunk
            lastCaptionUpdateAt := now }
       let r := Cap.maybeFinalizeChunk now videoStopped tNow st1
       (r.1, r.2 ++ [Cap.transcriptUpdateOf r.1, .statusUpdateMsg])) := by
    unfold Cap.handleCaptionChange
    rw [hlast]
    simp [hcap, hne, hneq2, hpre]
  have hrep : Cap.replaceLastChunkPart (Cap.normalizeText raw) tNow
      st.currentChunk = none := by
    rw [hchunk]
    rfl
  rw [hmain]
  dsimp only
  rw [hrep]
  have hsf : Cap.shouldFinalizeB now videoStopped none st.chunkStartWallTime =
      false := by
    unfold Cap.shouldFinalizeB
    cases st.chunkStartWallTime <;> rfl
  rw [maybeFinalize_of_not (by exact hsf)]
  refine ⟨rfl, rfl, rfl, ?_⟩
  simp [Cap.transcriptUpdateOf, Cap.isFinalizeMsg]

/-- C10 witness: the no-chunk prefix-growth theorem applied at a concrete
state. -/
theorem caption_prefix_growth_no_chunk_witness :
    (Cap.handleCaptionChange "the cell membrane is semi-permeable" 3 2000 false
        "cZ" true
        { isCapturing := true
          transcriptBuffer := [{ text := "the cell membrane is", startTime := 0,
                                 endTime := 0, tStart := 0, tEnd := 0,
                                 timestamp := 50 }]
          currentChunk := none
          chunkStartWallTime := none
          lastCaptionUpdateAt := 50 }).1.currentChunk = none :=
  (caption_prefix_growth_no_chunk "the cell membrane is semi-permeable" 3 2000
    false "cZ"
    { isCapturing := true
      transcriptBuffer := [{ text := "the cell membrane is", startTime := 0,
                             endTime := 0, tStart := 0, tEnd := 0,
                             timestamp := 50 }]
      currentChunk := none
      chunkStartWallTime := none
      lastCaptionUpdateAt := 50 }
    { text := "the cell membrane is", startTime := 0, endTime := 0,
      tStart := 0, tEnd := 0, timestamp := 50 }
    (by decide) (by decide) (by decide) (by decide) (by decide) (by decide)).1

/-- JS `split` on runs of separator characters (the regex `X+`): pieces
between maximal separator runs, keeping empty pieces at the ends. -/
def splitRunsGo (p : Char → Bool) : Bool → List Char → List Char → List (List Char)
  | _, [], cur => [cur.reverse]
  | inSep, c :: rest, cur =>
    if p c then
      if inSep then splitRunsGo p true rest cur
      else cur.reverse :: splitRunsGo p true rest []
    else splitRunsGo p false rest (c :: cur)

def splitRuns (p : Char → Bool) (l : List Char) : List (List Char) :=
  splitRunsGo p false l []

/-- JS `split(/(?<=[.!?])\s+/)`: split at whitespace runs that immediately
follow a sentence-final punctuation character, keeping the punctuation. -/
def sentSplitGo : Bool → Char → List Char → List Char → List (List Char)
  | _, _, [], cur => [cur.reverse]
  | skip, prev, c :: rest, cur =>
    if skip then
      if isJsSpace c then sentSplitGo true prev rest cur
      else sentSplitGo false c rest [c]
    else if isJsSpace c && (prev = '.' || prev = '!' || prev = '?') then
      cur.reverse :: sentSplitGo true c rest []
    else sentSplitGo false c rest (c :: cur)

def sentSplit (l : List Char) : List (List Char) := sentSplitGo false 'x' l []

/-- Leading-glyph class of `normalizeSentence`, the regex `[-*•]`. -/
def isSentGlyph (c : Char) : Bool := c = '-' || c = '*' || c = '•'

/-- `normalizeSentence` from service-worker.js. -/
def normalizeSentence (s : String) : String :=
  String.mk (jsTrimL (stripLeadRun isSentGlyph (collapseWsL s.data)))

/-- The token vocabulary of the two-token filler check. -/
def smallFillerWords : List String :=
  ["uh", "um", "hmm", "yeah", "okay", "ok", "right", "so", "well", "like"]

/-- The trailing class `[\s,.\-!?]` of `FILLER_ONLY_RE`. -/
def punctTailChar (c : Char) : Bool :=
  isJsSpace c || c = ',' || c = '.' || c = '-' || c = '!' || c = '?'

/-- Consume at least one repetition of `c` (the `+` of the regex) and
return the remainder. -/
def afterRep (c : Char) : List Char → Option (List Char)
  | x :: rest => if x = c then some (rest.dropWhile (fun d => d = c)) else none
  | [] => none

/-- Match `PREFIX c+ [\s,.\-!?]*` against the whole (lowercased) list. -/
def matchRepAlt (p : String) (c : Char) (l : List Char) : Bool :=
  if l.take p.data.length = p.data then
    match afterRep c (l.drop p.data.length) with
    | some r => r.all punctTailChar
    | none => false
  else false

/-- Match `WORD [\s,.\-!?]*` against the whole (lowercased) list. -/
def matchLit (w : String) (l : List Char) : Bool :=
  if l.take w.data.length = w.data then (l.drop w.data.length).all punctTailChar
  else false

/-- Full-string match of `FILLER_ONLY_RE` (case already lowered). -/
def fillerRegexMatch (l : List Char) : Bool :=
  matchRepAlt "u" 'h' l || matchRepAlt "u" 'm' l || matchRepAlt "hm" 'm' l ||
  matchRepAlt "m" 'm' l || matchRepAlt "yea" 'h' l || matchRepAlt "oka" 'y' l ||
  matchRepAlt "o" 'k' l || matchRepAlt "righ" 't' l || matchRepAlt "s" 'o' l ||
  matchRepAlt "wel" 'l' l || matchRepAlt "lik" 'e' l ||
  matchLit "you know" l || matchLit "i mean" l || matchLit "alright" l ||
  matchLit "all right" l || matchLit "let\x27s see" l || matchLit "huh" l

/-- `isFillerSentence` from service-worker.js. -/
def isFillerSentence (s : String) : Bool :=
  if s = "" then true
  else if fillerRegexMatch (s.data.map Char.toLower) then true
  else
    let normalized := jsTrimL (collapseWsL ((s.data.map Char.toLower).map
      (fun c =>
        if ('a' ≤ c && c ≤ 'z') || ('0' ≤ c && c ≤ '9') || isJsSpace c then c
        else ' ')))
    if normalized.isEmpty then true
    else
      let tokens := wordsBy (fun c => c = ' ') normalized
      if tokens.length ≤ 2 then
        tokens.all (fun t => smallFillerWords.contains t)
      else false

/-- `tightenCleanTranscript` from service-worker.js: sentence-split the
model output, drop empty and filler sentences and immediate near
duplicates, and re-join. -/
def tightenCleanTranscript (text : String) : String :=
  let replaced := text.data.map (fun c => if c = '\r' then '\n' else c)
  let rawParts := (splitRuns (fun c => c = '\n') replaced).flatMap sentSplit
  let cleaned := rawParts.foldl (fun acc part =>
    let sentence := normalizeSentence (String.mk part)
    if sentence = "" then acc
    else if isFillerSentence sentence then acc
    else
      match acc.getLast? with
      | some last =>
        if isNearDuplicateText last sentence then acc else acc ++ [sentence]
      | none => acc ++ [sentence]) []
  jsTrimS (String.mk (collapseWsL (String.intercalate " " cleaned).data))

example : tightenCleanTranscript
    "Um, okay.  The mitochondria produces ATP energy. The mitochondria produces ATP energy." =
    "The mitochondria produces ATP energy." := by decide

example : isFillerSentence "uhh," = true := by decide
example : isFillerSentence "yeah okay" = true := by decide
example : isFillerSentence "The membrane" = false := by decide
example : tightenCleanTranscript "" = "" := by decide

namespace Sw

/-- The AI settings snapshot `getAiSettings` returns (keys already
resolved from storage or environment). -/
structure SwSettings where
  aiNotesEnabled : Bool
  provider : String
  geminiKey : String
  openaiKey : String
  anthropicKey : String
deriving DecidableEq, Repr

/-- `isValidProvider`. -/
def isValidProvider (p : String) : Bool :=
  p = "gemini" || p = "openai" || p = "anthropic"

/-- The provider a task uses: the configured one when valid, else the
default provider `gemini`. -/
def activeProvider (st : SwSettings) : String :=
  if isValidProvider st.provider then st.provider else "gemini"

/-- `getProviderApiKey`: the trimmed stored key of the provider. -/
def getProviderApiKey (st : SwSettings) (p : String) : String :=
  jsTrimS (if p = "gemini" then st.geminiKey
    else if p = "openai" then st.openaiKey
    else if p = "anthropic" then st.anthropicKey
    else "")

/-- An awaited external model call: its outcome and its duration in
milliseconds. -/
structure Oracle where
  dur : ℕ
  result : Except String String

/-- The external environment of one finalized-chunk task: the settings
snapshot, the outcome of model resolution (a listing call or cache hit),
the three possible generation calls of the pipeline, the JSON parser
(`tryParseJson`, abstracted as a function from model text to the parsed JS
value), whether the storage write succeeds, and the current ISO
timestamp. -/
structure SwEnv where
  settings : SwSettings
  resolveModel : Except String String
  cleanCall : Oracle
  mergeCall : Oracle
  repairCall : Oracle
  parseNotes : String → Option (Option RawNotes)
  persistOk : Bool
  isoNow : String

/-- A finalized chunk as received by the service worker. -/
structure SwChunk where
  chunkId : String
  text : String
deriving DecidableEq, Repr

/-- Messages broadcast to the side panel. -/
inductive SwMsg where
  | errorMsg (text : String)
  | notesUpdateMsg (notes : NotesState)
deriving DecidableEq, Repr

def isErrorMsg : SwMsg → Bool
  | .errorMsg _ => true
  | _ => false

/-- The service-worker state threaded through a task: the persisted
NotesState, the rate-limit timestamp, the current wall-clock time, the
emitted messages, and the log of outbound generation calls as
(start, end) times. -/
structure SwState where
  notes : NotesState
  lastLlmCallAt : ℤ
  now : ℤ
  msgs : List SwMsg
  calls : List (ℤ × ℤ)
deriving DecidableEq, Repr

/-- `waitForRateLimit`: sleep for `Math.max(0, 5000 - (now - lastLlmCallAt))`
milliseconds, then record the new timestamp (the sleep is modelled as
exact).  The `Math.max` is written as an explicit comparison. -/
def waitForRateLimit (s : SwState) : SwState :=
  let delay := if 5000 - (s.now - s.lastLlmCallAt) < 0 then 0
    else 5000 - (s.now - s.lastLlmCallAt)
  let t := s.now + delay
  { s with now := t, lastLlmCallAt := t }

/-- Issue one outbound generation call: time advances by its duration and
the call interval is logged. -/
def record (o : Oracle) (s : SwState) : SwState :=
  { s with now := s.now + o.dur, calls := s.calls ++ [(s.now, s.now + o.dur)] }

/-- `updateNotesWithLLM` with the model calls supplied by the environment:
Stage 1 (clean), the deterministic tightening pass, the empty-transcript
early return, Stage 2 (merge), parse/repair, and the quality merge.
Returns the updated state and either the notes value to persist or the
thrown error. -/
def updateFlow (env : SwEnv) (ch : SwChunk) (prev : NotesState) (s : SwState) :
    SwState × Except String NotesState :=
  let previousNotes := normalizeNS prev
  let s1 := record env.cleanCall s
  match env.cleanCall.result with
  | .error e => (s1, .error e)
  | .ok cleanedRaw =>
    let cleanText := tightenCleanTranscript cleanedRaw
    if jsTrimS cleanText = "" then
      (s1, .ok { previousNotes with
        lastChunkId := if ch.chunkId = "" then previousNotes.lastChunkId
          else some ch.chunkId })
    else
      let s2 := record env.mergeCall s1
      match env.mergeCall.result with
      | .error e => (s2, .error e)
      | .ok mergedRaw =>
        match env.parseNotes mergedRaw with
        | some v =>
          let q := enforceCumulativeQuality (some (toRaw previousNotes))
            (some (toRaw (normalizeNotesState v)))
          (s2, .ok { q with
            lastUpdatedAt := some env.isoNow
            lastChunkId := if ch.chunkId = "" then q.lastChunkId
              else some ch.chunkId })
        | none =>
          let s3 := record env.repairCall s2
          match env.repairCall.result with
          | .error e => (s3, .error e)
          | .ok repairedText =>
            match env.parseNotes repairedText with
            | none => (s3, .error "Model output could not be parsed as valid JSON.")
            | some v =>
              let q := enforceCumulativeQuality (some (toRaw previousNotes))
                (some (toRaw (normalizeNotesState v)))
              (s3, .ok { q with
                lastUpdatedAt := some env.isoNow
                lastChunkId := if ch.chunkId = "" then q.lastChunkId
                  else some ch.chunkId })

/-- The body of the `try` block of `handleFinalizeChunk` (model
resolution, the two-stage pipeline, persistence and the NOTES_UPDATE
broadcast); `none` in the second component means success, `some e` the
caught error.  The storage write is atomic: when it fails the previously
persisted notes are untouched. -/
def tryBody (env : SwEnv) (ch : SwChunk) (prev : NotesState) (s : SwState) :
    SwState × Option String :=
  match env.resolveModel with
  | .error e => (s, some e)
  | .ok _ =>
    match updateFlow env ch prev s with
    | (s1, .error e) => (s1, some e)
    | (s1, .ok updatedNotes) =>
      if env.persistOk then
        ({ s1 with notes := normalizeNS updatedNotes,
                   msgs := s1.msgs ++ [.notesUpdateMsg updatedNotes] }, none)
      else (s1, some "storage write failed")

/-- `handleFinalizeChunk` from service-worker.js: empty-chunk guard,
feature-flag guard (silent), API-key guard (ERROR notification), rate
limiting, then the try/catch around the pipeline; a caught error is
reported as an ERROR notification and leaves the notes untouched. -/
def handleFinalizeChunk (env : SwEnv) (chunk : Option SwChunk) (s : SwState) :
    SwState :=
  match chunk with
  | none => s
  | some ch =>
    if jsTrimS ch.text = "" then s
    else
      let currentNotes := normalizeNS s.notes
      if !env.settings.aiNotesEnabled then s
      else
        let provider := activeProvider env.settings
        if getProviderApiKey env.settings provider = "" then
          { s with msgs := s.msgs ++
              [.errorMsg ("AI Notes enabled, but no API key saved for " ++
                provider ++ ".")] }
        else
          let s1 := waitForRateLimit s
          match tryBody env ch currentNotes s1 with
          | (s2, none) => s2
          | (s2, some e) =>
            { s2 with msgs := s2.msgs ++
                [.errorMsg (provider ++ " notes update failed: " ++ e)] }

/-- One queued finalized-chunk task. -/
structure SwTask where
  env : SwEnv
  chunk : Option SwChunk

/-- The `llmQueue` promise chain: because every task catches its own
errors, the chain is a strict left fold over the arrival order. -/
def runQueue (tasks : List SwTask) (s : SwState) : SwState :=
  tasks.foldl (fun st t => handleFinalizeChunk t.env t.chunk st) s

end Sw

lemma updateFlow_notes (env : Sw.SwEnv) (ch : Sw.SwChunk) (prev : NotesState)
    (s : Sw.SwState) : (Sw.updateFlow env ch prev s).1.notes = s.notes := by
  unfold Sw.updateFlow
  dsimp only
  split
  · rfl
  · split
    · rfl
    · split
      · rfl
      · split
        · rfl
        · split
          · rfl
          · split
            · rfl
            · rfl

lemma tryBody_err_notes (env : Sw.SwEnv) (ch : Sw.SwChunk) (prev : NotesState)
    (s : Sw.SwState) (e : String)
    (h : (Sw.tryBody env ch prev s).2 = some e) :
    (Sw.tryBody env ch prev s).1.notes = s.notes := by
  unfold Sw.tryBody at h ⊢
  cases hres : env.resolveModel with
  | error e2 => rfl
  | ok m =>
    dsimp only at h ⊢
    cases hup : Sw.updateFlow env ch prev s with
    | mk s1 r =>
      rw [hres] at h
      dsimp only at h
      cases r with
      | error e2 =>
        have hn := updateFlow_notes env ch prev s
        rw [hup] at hn
        exact hn
      | ok u =>
        rw [hup] at h
        dsimp only at h ⊢
        by_cases hp : env.persistOk = true
        · rw [if_pos hp] at h
          simp at h
        · rw [if_neg hp]
          have hn := updateFlow_notes env ch prev s
          rw [hup] at hn
          exact hn

/-- C2: a failing task (any caught error in model resolution, the model
calls, parse/repair, or persistence) leaves the persisted NotesState
exactly as it was before the task began, and the queue is a strict fold:
every subsequently queued task still executes, in order, on the state left
by its predecessors. -/
theorem queue_failure_isolation :
    (∀ (env : Sw.SwEnv) (ch : Sw.SwChunk) (s : Sw.SwState) (e : String),
      (Sw.tryBody env ch (normalizeNS s.notes) (Sw.waitForRateLimit s)).2 = some e →
      (Sw.handleFinalizeChunk env (some ch) s).notes = s.notes) ∧
    (∀ (ts1 ts2 : List Sw.SwTask) (s : Sw.SwState),
      Sw.runQueue (ts1 ++ ts2) s = Sw.runQueue ts2 (Sw.runQueue ts1 s)) := by
  constructor
  · intro env ch s e herr
    unfold Sw.handleFinalizeChunk
    dsimp only
    by_cases h1 : jsTrimS ch.text = ""
    · rw [if_pos h1]
    · rw [if_neg h1]
      by_cases h2 : env.settings.aiNotesEnabled = true
      · rw [if_neg (by simp [h2])]
        by_cases h3 : Sw.getProviderApiKey env.settings
            (Sw.activeProvider env.settings) = ""
        · rw [if_pos h3]
        · rw [if_neg h3]
          cases htb : Sw.tryBody env ch (normalizeNS s.notes)
              (Sw.waitForRateLimit s) with
          | mk s2 o =>
            cases o with
            | none =>
              rw [htb] at herr
              simp at herr
            | some e2 =>
              have hn := tryBody_err_notes env ch (normalizeNS s.notes)
                (Sw.waitForRateLimit s) e2 (by rw [htb])
              rw [htb] at hn
              exact hn
      · rw [if_pos (by simp [Bool.not_eq_true] at h2 ⊢; exact h2)]
  · intro ts1 ts2 s
    unfold Sw.runQueue
    exact List.foldl_append _ _ _ _

/-- Environment for the C2 witness: Stage 1 fails. -/
def c2Env : Sw.SwEnv :=
  { settings := { aiNotesEnabled := true, provider := "gemini",
                  geminiKey := "key1", openaiKey := "", anthropicKey := "" }
    resolveModel := .ok "gemini-2.0-flash"
    cleanCall := { dur := 100, result := .error "network down" }
    mergeCall := { dur := 100, result := .ok "x" }
    repairCall := { dur := 100, result := .ok "x" }
    parseNotes := fun _ => none
    persistOk := true
    isoNow := "2026-01-01T00:00:00.000Z" }

def c2Chunk : Sw.SwChunk := { chunkId := "ck2", text := "the lecture continues" }

def c2State : Sw.SwState :=
  { notes := defaultNotesState, lastLlmCallAt := 0, now := 0, msgs := [], calls := [] }

/-- C2 witness: the isolation theorem applied at a task whose Stage 1 call
fails, and the queue fold split at a concrete point. -/
theorem queue_failure_isolation_witness :
    (Sw.handleFinalizeChunk c2Env (some c2Chunk) c2State).notes = c2State.notes ∧
    Sw.runQueue ([⟨c2Env, some c2Chunk⟩] ++ [⟨c2Env, none⟩]) c2State =
      Sw.runQueue [⟨c2Env, none⟩] (Sw.runQueue [⟨c2Env, some c2Chunk⟩] c2State) :=
  ⟨queue_failure_isolation.1 c2Env c2Chunk c2State "network down" (by decide),
   queue_failure_isolation.2 [⟨c2Env, some c2Chunk⟩] [⟨c2Env, none⟩] c2State⟩

/-- Environment for the C8 counterexample: the AI feature flag is
disabled while a key is configured. -/
def c8Env : Sw.SwEnv :=
  { settings := { aiNotesEnabled := false, provider := "gemini",
                  geminiKey := "key1", openaiKey := "", anthropicKey := "" }
    resolveModel := .ok "gemini-2.0-flash"
    cleanCall := { dur := 1, result := .ok "x" }
    mergeCall := { dur := 1, result := .ok "x" }
    repairCall := { dur := 1, result := .ok "x" }
    parseNotes := fun _ => none
    persistOk := true
    isoNow := "t" }

def c8Chunk : Sw.SwChunk := { chunkId := "ck8", text := "hello world lecture" }

def c8State : Sw.SwState :=
  { notes := defaultNotesState, lastLlmCallAt := 0, now := 0, msgs := [], calls := [] }

/-- C8 counterexample: a task arriving with the AI feature flag disabled
ends immediately and silently; no ERROR notification is emitted, contrary
to the claim that either precondition failure produces one. -/
theorem disabled_flag_no_notification :
    c8Env.settings.aiNotesEnabled = false ∧
    Sw.handleFinalizeChunk c8Env (some c8Chunk) c8State = c8State ∧
    (Sw.handleFinalizeChunk c8Env (some c8Chunk) c8State).msgs.countP
      Sw.isErrorMsg = 0 := by
  refine ⟨rfl, by decide, by decide⟩

/-- C8 (amended): a disabled AI flag ends the task immediately, before any
model work, with the state (including messages) fully unchanged - and
silently; a missing API key for the active provider ends the task
immediately with exactly one ERROR notification and no model work. -/
theorem precondition_short_circuit (env : Sw.SwEnv) (chunk : Option Sw.SwChunk)
    (s : Sw.SwState) :
    (env.settings.aiNotesEnabled = false →
      Sw.handleFinalizeChunk env chunk s = s) ∧
    (∀ ch, chunk = some ch → jsTrimS ch.text ≠ "" →
      env.settings.aiNotesEnabled = true →
      Sw.getProviderApiKey env.settings (Sw.activeProvider env.settings) = "" →
      Sw.handleFinalizeChunk env chunk s =
        { s with msgs := s.msgs ++
            [.errorMsg ("AI Notes enabled, but no API key saved for " ++
              Sw.activeProvider env.settings ++ ".")] }) := by
  constructor
  · intro hdis
    cases chunk with
    | none => rfl
    | some ch =>
      unfold Sw.handleFinalizeChunk
      dsimp only
      by_cases h1 : jsTrimS ch.text = ""
      · rw [if_pos h1]
      · rw [if_neg h1, if_pos (by simp [hdis])]
  · intro ch hch hne hen hkey
    subst hch
    unfold Sw.handleFinalizeChunk
    dsimp only
    rw [if_neg hne, if_neg (by simp [hen]), if_pos hkey]

/-- Environment for the key-missing half of the C8 witness. -/
def c8KeyEnv : Sw.SwEnv :=
  { settings := { aiNotesEnabled := true, provider := "gemini",
                  geminiKey := "  ", openaiKey := "", anthropicKey := "" }
    resolveModel := .ok "gemini-2.0-flash"
    cleanCall := { dur := 1, result := .ok "x" }
    mergeCall := { dur := 1, result := .ok "x" }
    repairCall := { dur := 1, result := .ok "x" }
    parseNotes := fun _ => none
    persistOk := true
    isoNow := "t" }

/-- C8 witness: the short-circuit theorem applied at the disabled-flag
input and at a whitespace-only-key input. -/
theorem precondition_short_circuit_witness :
    Sw.handleFinalizeChunk c8Env (some c8Chunk) c8State = c8State ∧
    Sw.handleFinalizeChunk c8KeyEnv (some c8Chunk) c8State =
      { c8State with msgs := c8State.msgs ++
          [.errorMsg ("AI Notes enabled, but no API key saved for " ++
            Sw.activeProvider c8KeyEnv.settings ++ ".")] } :=
  ⟨(precondition_short_circuit c8Env (some c8Chunk) c8State).1 rfl,
   (precondition_short_circuit c8KeyEnv (some c8Chunk) c8State).2 c8Chunk rfl
     (by decide) rfl (by decide)⟩

lemma record_calls {o : Sw.Oracle} {s : Sw.SwState} {c : ℤ × ℤ}
    (h : c ∈ (Sw.record o s).calls) : c ∈ s.calls ∨ c.1 = s.now := by
  unfold Sw.record at h
  dsimp only at h
  rcases List.mem_append.mp h with h1 | h1
  · exact Or.inl h1
  · right
    have : c = (s.now, s.now + o.dur) := by simpa using h1
    rw [this]

lemma record_now (o : Sw.Oracle) (s : Sw.SwState) : s.now ≤ (Sw.record o s).now := by
  unfold Sw.record
  dsimp only
  omega

lemma record_calls_ge {o : Sw.Oracle} {s : Sw.SwState} {c : ℤ × ℤ} {t : ℤ}
    (hts : t ≤ s.now) (h : c ∈ (Sw.record o s).calls) :
    c ∈ s.calls ∨ t ≤ c.1 := by
  rcases record_calls h with h1 | h1
  · exact Or.inl h1
  · right
    omega

lemma updateFlow_calls (env : Sw.SwEnv) (ch : Sw.SwChunk) (prev : NotesState)
    (s : Sw.SwState) :
    ∀ c ∈ (Sw.updateFlow env ch prev s).1.calls, c ∈ s.calls ∨ s.now ≤ c.1 := by
  intro c hc
  have h1le : s.now ≤ (Sw.record env.cleanCall s).now := record_now _ _
  have h2le : s.now ≤ (Sw.record env.mergeCall (Sw.record env.cleanCall s)).now :=
    le_trans h1le (record_now _ _)
  unfold Sw.updateFlow at hc
  dsimp only at hc
  split at hc
  · exact record_calls_ge (le_refl _) hc
  · split at hc
    · exact record_calls_ge (le_refl _) hc
    · split at hc
      · rcases record_calls_ge h1le hc with h | h
        · exact record_calls_ge (le_refl _) h
        · exact Or.inr h
      · split at hc
        · -- parse succeeded after merge: calls of record merge (record clean s)
          rcases record_calls_ge h1le hc with h | h
          · exact record_calls_ge (le_refl _) h
          · exact Or.inr h
        · split at hc
          · -- repair failed: record repair (record merge (record clean s))
            rcases record_calls_ge h2le hc with h | h
            · rcases record_calls_ge h1le h with h' | h'
              · exact record_calls_ge (le_refl _) h'
              · exact Or.inr h'
            · exact Or.inr h
          · split at hc
            · rcases record_calls_ge h2le hc with h | h
              · rcases record_calls_ge h1le h with h' | h'
                · exact record_calls_ge (le_refl _) h'
                · exact Or.inr h'
              · exact Or.inr h
            · rcases record_calls_ge h2le hc with h | h
              · rcases record_calls_ge h1le h with h' | h'
                · exact record_calls_ge (le_refl _) h'
                · exact Or.inr h'
              · exact Or.inr h

lemma tryBody_calls (env : Sw.SwEnv) (ch : Sw.SwChunk) (prev : NotesState)
    (s : Sw.SwState) :
    ∀ c ∈ (Sw.tryBody env ch prev s).1.calls, c ∈ s.calls ∨ s.now ≤ c.1 := by
  intro c hc
  unfold Sw.tryBody at hc
  cases hres : env.resolveModel with
  | error e => rw [hres] at hc; exact Or.inl hc
  | ok m =>
    rw [hres] at hc
    dsimp only at hc
    cases hup : Sw.updateFlow env ch prev s with
    | mk s1 r =>
      rw [hup] at hc
      have hcalls : ∀ c ∈ s1.calls, c ∈ s.calls ∨ s.now ≤ c.1 := by
        intro c2 hc2
        refine updateFlow_calls env ch prev s c2 ?_
        rw [hup]
        exact hc2
      cases r with
      | error e => exact hcalls c hc
      | ok u =>
        dsimp only at hc
        by_cases hp : env.persistOk = true
        · rw [if_pos hp] at hc
          exact hcalls c hc
        · rw [if_neg hp] at hc
          exact hcalls c hc

lemma waitForRateLimit_now (s : Sw.SwState) :
    (Sw.waitForRateLimit s).now = max s.now (s.lastLlmCallAt + 5000) := by
  unfold Sw.waitForRateLimit
  dsimp only
  split_ifs with h
  · rw [max_eq_left (by omega)]
    omega
  · rw [max_eq_right (by omega)]
    omega

/-- C9 (amended): the rate limiter runs once per task, before the model
phase: it advances time to at least 5000 ms after the previously recorded
timestamp and records the phase start (not the end of the last call), and
every model call a task issues starts at least 5000 ms after the previous
task's recorded timestamp; calls within one task are issued back to back
with no further spacing. -/
theorem rate_limit_per_task (env : Sw.SwEnv) (chunk : Option Sw.SwChunk)
    (s : Sw.SwState) :
    (Sw.waitForRateLimit s).now = max s.now (s.lastLlmCallAt + 5000) ∧
    s.lastLlmCallAt + 5000 ≤ (Sw.waitForRateLimit s).now ∧
    (Sw.waitForRateLimit s).lastLlmCallAt = (Sw.waitForRateLimit s).now ∧
    ∀ c ∈ (Sw.handleFinalizeChunk env chunk s).calls,
      c ∈ s.calls ∨ s.lastLlmCallAt + 5000 ≤ c.1 := by
  refine ⟨waitForRateLimit_now s, ?_, rfl, ?_⟩
  · rw [waitForRateLimit_now]
    exact le_max_right _ _
  · intro c hc
    cases chunk with
    | none => exact Or.inl hc
    | some ch =>
      unfold Sw.handleFinalizeChunk at hc
      dsimp only at hc
      by_cases h1 : jsTrimS ch.text = ""
      · rw [if_pos h1] at hc
        exact Or.inl hc
      · rw [if_neg h1] at hc
        by_cases h2 : env.settings.aiNotesEnabled = true
        · rw [if_neg (by simp [h2])] at hc
          by_cases h3 : Sw.getProviderApiKey env.settings
              (Sw.activeProvider env.settings) = ""
          · rw [if_pos h3] at hc
            exact Or.inl hc
          · rw [if_neg h3] at hc
            cases htb : Sw.tryBody env ch (normalizeNS s.notes)
                (Sw.waitForRateLimit s) with
            | mk s2 o =>
              rw [htb] at hc
              have hmem : c ∈ s2.calls := by
                cases o with
                | none => exact hc
                | some e => exact hc
              have h4 := tryBody_calls env ch (normalizeNS s.notes)
                (Sw.waitForRateLimit s) c (by rw [htb]; exact hmem)
              rcases h4 with h4 | h4
              · exact Or.inl h4
              · right
                have h5 : s.lastLlmCallAt + 5000 ≤ (Sw.waitForRateLimit s).now := by
                  rw [waitForRateLimit_now]
                  exact le_max_right _ _
                omega
        · rw [if_pos (by simp [Bool.not_eq_true] at h2 ⊢; exact h2)] at hc
          exact Or.inl hc

/-- Environment for the C9 counterexample: both stages succeed, each call
taking 100 ms. -/
def c9Env : Sw.SwEnv :=
  { settings := { aiNotesEnabled := true, provider := "gemini",
                  geminiKey := "key1", openaiKey := "", anthropicKey := "" }
    resolveModel := .ok "gemini-2.0-flash"
    cleanCall := { dur := 100, result := .ok "Mitochondria produce ATP energy." }
    mergeCall := { dur := 100, result := .ok "stage2 json output" }
    repairCall := { dur := 100, result := .ok "stage2 json output" }
    parseNotes := fun _ => some (some
      { title := none
        sections := some
          [{ heading := some "Cell Biology"
             bullets := some [some "Mitochondria produce ATP energy for the cell"] }]
        outline := none
        lastUpdatedAt := none
        lastChunkId := none
        lastUpdatedChunkId := none })
    persistOk := true
    isoNow := "2026-01-01T00:00:00.000Z" }

def c9Chunk : Sw.SwChunk :=
  { chunkId := "ck9", text := "the mitochondria produces energy" }

def c9State : Sw.SwState :=
  { notes := defaultNotesState, lastLlmCallAt := 0, now := 0, msgs := [], calls := [] }

/-- C9 counterexample: one successful task issues its Stage 1 and Stage 2
calls back to back - the second call starts exactly when the first ends,
not 5000 ms after it. -/
theorem consecutive_calls_not_spaced :
    (Sw.handleFinalizeChunk c9Env (some c9Chunk) c9State).calls =
      [(5000, 5100), (5100, 5200)] ∧
    ¬((5100 : ℤ) + 5000 ≤ 5100) := by
  refine ⟨by decide, by decide⟩

/-- C9 witness: the per-task spacing theorem applied at the concrete run;
its first logged call starts 5000 ms after the recorded timestamp 0. -/
theorem rate_limit_per_task_witness :
    ((5000 : ℤ), (5100 : ℤ)) ∈ c9State.calls ∨
      c9State.lastLlmCallAt + 5000 ≤ (5000 : ℤ) :=
  (rate_limit_per_task c9Env (some c9Chunk) c9State).2.2.2 (5000, 5100) (by decide)
